import Mathlib

/-!
Verification development for two yosys optimization passes:
`src/passes/opt/opt_merge_wires.cc` (the `opt_merge_wires` pass) and
`src/passes/techmap/tribuf.cc` (the `tribuf` pass).

The netlist IR (wires, sig-bits, sig-specs, cells, modules) is shallowly
embedded; yosys `dict`/`pool` hash containers are modelled as association
lists / duplicate-free lists iterated in insertion order, and pointer
identity of cells and wires is modelled with numeric ids.  The two pass
implementations below are direct translations of the corresponding C++
functions; helper kernel services (`SigMap`, `SigSpec::extract`, ...)
that live outside the two source files are modelled from the spec, as
noted on their doc comments.
-/

set_option maxRecDepth 10000

namespace Yosys

/-- A constant signal state: `0`, `1`, `x` (undef) or `z` (hi-impedance). -/
inductive St where
  | s0 | s1 | sx | sz
deriving DecidableEq

/-- One bit of a signal: a constant or a (wire id, bit offset) reference.
Mirrors `RTLIL::SigBit`: two non-constant bits are equal iff they are the
same offset of the same wire. -/
inductive SigBit where
  | const (s : St)
  | wbit (w : Nat) (off : Nat)
deriving DecidableEq

/-- Whether a bit references a wire (`bit.wire != nullptr` in the source). -/
def SigBit.isWire : SigBit → Bool
  | .const _ => false
  | .wbit _ _ => true

/-- An ordered concatenation of bits (`RTLIL::SigSpec`). -/
abbrev SigSpec := List SigBit

/-- A wire of a module.  `public` models `name[0] != '$'`. -/
structure Wire where
  id : Nat
  width : Nat
  port_input : Bool
  port_output : Bool
  public : Bool
deriving DecidableEq

/-- Cell types appearing in the two passes. -/
inductive CellType where
  | mux | muxGate | tribuf | tbufGate
  | notOp | orOp | andOp | reduceOr | pmux | assertOp
  | other (n : Nat)
deriving DecidableEq

/-- Cell port names appearing in the two passes. -/
inductive PortName where
  | A | B | S | Y | EN | E
deriving DecidableEq

/-- A cell: typed operator with named port connections.  `id` models the
stable identity (pointer / name) of the cell; `widthParam` the `WIDTH`
parameter; `keep`/`src` the two attributes touched by `tribuf.cc`. -/
structure Cell where
  id : Nat
  ctype : CellType
  ports : List (PortName × SigSpec)
  widthParam : Nat := 0
  keep : Bool := false
  src : Nat := 0
deriving DecidableEq

/-- Models `Cell::getPort` (missing port yields the empty spec; the source asserts
the port exists at every use below). -/
def Cell.getPort (c : Cell) (p : PortName) : SigSpec :=
  match c.ports.find? (fun q => q.1 = p) with
  | some q => q.2
  | none => []

/-- Models `Cell::setPort`: replace the port in place if present, else append it. -/
def Cell.setPort (c : Cell) (p : PortName) (s : SigSpec) : Cell :=
  if (c.ports.find? (fun q => q.1 = p)).isSome then
    { c with ports := c.ports.map (fun q => if q.1 = p then (p, s) else q) }
  else
    { c with ports := c.ports ++ [(p, s)] }

/-- Models `Cell::unsetPort`. -/
def Cell.unsetPort (c : Cell) (p : PortName) : Cell :=
  { c with ports := c.ports.filter (fun q => ¬ q.1 = p) }

/-- Models `Cell::output(port)`: among the port names used by the two passes, only
`Y` is an output port (`$assert` has only inputs `A`/`EN`). -/
def isOutputPort (p : PortName) : Bool :=
  p = PortName.Y

/-- A module: wires, cells, connection list, and a counter producing fresh
ids (models `NEW_ID` name generation). -/
structure Module where
  wires : List Wire
  cells : List Cell
  connections : List (SigSpec × SigSpec)
  fresh : Nat
deriving DecidableEq

/-- Models `Module::addWire(NEW_ID, width)`; fresh wires have `$`-generated names,
so they are neither ports nor public. -/
def Module.addWire (m : Module) (width : Nat) : Wire × Module :=
  let w : Wire := { id := m.fresh, width := width,
                    port_input := false, port_output := false, public := false }
  (w, { m with wires := m.wires ++ [w], fresh := m.fresh + 1 })

/-- All bits of a wire, LSB first (conversion `SigSpec(wire)`). -/
def wireSpec (w : Wire) : SigSpec :=
  (List.range w.width).map (fun i => SigBit.wbit w.id i)

/-- Add a cell with the given type and ports. -/
def Module.addCell (m : Module) (t : CellType) (ps : List (PortName × SigSpec)) :
    Cell × Module :=
  let c : Cell := { id := m.fresh, ctype := t, ports := ps }
  (c, { m with cells := m.cells ++ [c], fresh := m.fresh + 1 })

/-- Models `Module::remove(cell)` (cells are identified by id). -/
def Module.removeCell (m : Module) (cid : Nat) : Module :=
  { m with cells := m.cells.filter (fun c => ¬ c.id = cid) }

/-- Replace (in place) the cell with the given id. -/
def Module.replaceCell (m : Module) (cid : Nat) (f : Cell → Cell) : Module :=
  { m with cells := m.cells.map (fun c => if c.id = cid then f c else c) }

/-- Look up a cell by id. -/
def Module.cell? (m : Module) (cid : Nat) : Option Cell :=
  m.cells.find? (fun c => c.id = cid)

/-- Models `Module::connect(lhs, rhs)` appends to the connection list. -/
def Module.connect (m : Module) (l r : SigSpec) : Module :=
  { m with connections := m.connections ++ [(l, r)] }

/-! ### `pool` / `dict` containers

yosys `pool`/`dict` are hash containers; membership and lookup are by
value.  They are modelled as duplicate-free lists / association lists,
iterated in insertion order. -/

/-- Models `pool::insert`: appends unless already present. -/
def poolInsert [DecidableEq α] (l : List α) (x : α) : List α :=
  if x ∈ l then l else l ++ [x]

/-- Models `pool::erase`. -/
def poolErase [DecidableEq α] (l : List α) (x : α) : List α :=
  l.filter (fun y => ¬ y = x)

/-- Insert a whole list (`pool::insert(begin, end)`). -/
def poolInsertMany [DecidableEq α] (l : List α) (xs : List α) : List α :=
  xs.foldl poolInsert l

/-- Models `dict` lookup. -/
def dictGet? [DecidableEq κ] (d : List (κ × ν)) (k : κ) : Option ν :=
  match d.find? (fun e => e.1 = k) with
  | some e => some e.2
  | none => none

/-- Models `dict::count(k) > 0`. -/
def dictHas [DecidableEq κ] (d : List (κ × ν)) (k : κ) : Bool :=
  (dictGet? d k).isSome

/-- Models `dict::operator[](k)` followed by a mutation of the value: creates the
entry (with `dflt`) if absent, then updates it in place. -/
def dictUpsert [DecidableEq κ] (d : List (κ × ν)) (k : κ) (dflt : ν) (f : ν → ν) :
    List (κ × ν) :=
  if dictHas d k then
    d.map (fun e => if e.1 = k then (k, f e.2) else e)
  else
    d ++ [(k, f dflt)]

/-- Models `dict::at(k)` followed by a mutation of the value.  The source throws on
a missing key; every call site below guarantees presence, and a missing key
is modelled as a no-op. -/
def dictAdjust [DecidableEq κ] (d : List (κ × ν)) (k : κ) (f : ν → ν) :
    List (κ × ν) :=
  d.map (fun e => if e.1 = k then (k, f e.2) else e)

/-- Models `dict::at(k)` with a default for the (unreachable) missing case. -/
def dictAt [DecidableEq κ] [Inhabited ν] (d : List (κ × ν)) (k : κ) : ν :=
  (dictGet? d k).getD default

/-! ### SigSpec algebra

Modelled from the spec (§4.6 bit-slice algebra; the `SigSpec` primitives
live in the yosys kernel, outside the two source files):
`extract(pattern)` keeps the wire bits of `self` that occur in `pattern`;
`extract(pattern, &other)` projects `other` to those positions;
`remove(pattern)` drops the wire bits of `self` that occur in `pattern`;
`extract(i)` / `remove(i)` address a single index. -/

/-- Models `SigSpec::extract(pattern)`. -/
def specExtract (self pattern : SigSpec) : SigSpec :=
  self.filter (fun b => b.isWire ∧ b ∈ pattern)

/-- Models `SigSpec::extract(pattern, &other)`. -/
def specExtractOther (self pattern other : SigSpec) : SigSpec :=
  (self.zip other).filterMap
    (fun p => if p.1.isWire ∧ p.1 ∈ pattern then some p.2 else none)

/-- Models `SigSpec::remove(pattern)`. -/
def specRemove (self pattern : SigSpec) : SigSpec :=
  self.filter (fun b => ¬ (b.isWire ∧ b ∈ pattern))

/-- Models `SigSpec::extract(i)` (one bit at index `i`). -/
def specExtractIdx (self : SigSpec) (i : Nat) : SigSpec :=
  match self.get? i with
  | some b => [b]
  | none => []

/-- Models `SigSpec::remove(i)` (drop index `i`). -/
def specRemoveIdx (self : SigSpec) (i : Nat) : SigSpec :=
  self.take i ++ self.drop (i + 1)

/-- Models `SigSpec::replace(rules)`: rewrite the wire bits found in the map. -/
def specReplace (rules : List (SigBit × SigBit)) (self : SigSpec) : SigSpec :=
  self.map (fun b => if b.isWire then (dictGet? rules b).getD b else b)

/-! ### SigMap

Modelled from the spec (§4.1): a union-find over bits built from
connection pairs; `canon` maps each bit to the canonical representative of
its class (which representative is chosen inside `SigMap` is unspecified;
we keep the earlier-registered bit).  The find structure is an association
list whose keys, in insertion order, are exactly the bits registered so
far (`allbits`), each mapped directly to its current root. -/

abbrev UF := List (SigBit × SigBit)

/-- Register a bit in the union-find (no-op if present). -/
def ufRegister (uf : UF) (b : SigBit) : UF :=
  if dictHas uf b then uf else uf ++ [(b, b)]

/-- The current root of a bit. -/
def ufRoot (uf : UF) (b : SigBit) : SigBit :=
  (dictGet? uf b).getD b

/-- Union the classes of `a` and `b`, keeping `a`'s root. -/
def ufUnion (uf : UF) (a b : SigBit) : UF :=
  let uf := ufRegister uf a
  let uf := ufRegister uf b
  let ra := ufRoot uf a
  let rb := ufRoot uf b
  if ra = rb then uf
  else uf.map (fun e => if e.2 = rb then (e.1, ra) else e)

/-- Models `SigMap::add(from, to)`: union the bits position-wise. -/
def ufAddSpec (uf : UF) (from_ to_ : SigSpec) : UF :=
  (from_.zip to_).foldl (fun u p => ufUnion u p.1 p.2) uf

/-- Models `SigMap::allbits()`: every registered bit, in insertion order. -/
def ufAllbits (uf : UF) : List SigBit :=
  uf.map (fun e => e.1)

/-- Models `sigmap(bit)`. -/
def canonBit (uf : UF) (b : SigBit) : SigBit :=
  ufRoot uf b

/-- Models `sigmap(sigspec)`: per-bit canonicalization. -/
def canonSpec (uf : UF) (s : SigSpec) : SigSpec :=
  s.map (canonBit uf)

/-! ### The `opt_merge_wires` pass

Direct translation of `OptMergeWiresPass::execute`
(`src/passes/opt/opt_merge_wires.cc`, lines 54-235), specialised to a
single module; the returned boolean is the `opt.did_something` scratchpad
value (`changed_wires > 0`). -/

/-- Lines 60-64: a connection takes part in the SigMap only when every bit
position of both sides references a wire (`goto skip_connection`
otherwise). -/
def connectionAllWire (c : SigSpec × SigSpec) : Bool :=
  (c.1.zip c.2).all (fun p => p.1.isWire && p.2.isWire)

/-- The union operations a single connection contributes to the SigMap:
all its bit pairs if it is all-wire, none otherwise. -/
def connUnions (c : SigSpec × SigSpec) : List (SigBit × SigBit) :=
  if connectionAllWire c then c.1.zip c.2 else []

/-- All union operations performed while building the pass's SigMap
(lines 60-67). -/
def sigmapUnions (conns : List (SigSpec × SigSpec)) : List (SigBit × SigBit) :=
  conns.foldl (fun acc c => acc ++ connUnions c) []

/-- The SigMap built by the pass: fold the union operations into the
union-find. -/
def buildMwSigmap (conns : List (SigSpec × SigSpec)) : UF :=
  (sigmapUnions conns).foldl (fun u p => ufUnion u p.1 p.2) []

/-- Models `sigbit.wire->port_input`. -/
def bitIsInput (wires : List Wire) (b : SigBit) : Bool :=
  match b with
  | .const _ => false
  | .wbit w _ =>
    match wires.find? (fun x => x.id = w) with
    | some x => x.port_input
    | none => false

/-- Models `sigbit.wire->name[0] != '$'`. -/
def bitIsPublic (wires : List Wire) (b : SigBit) : Bool :=
  match b with
  | .const _ => false
  | .wbit w _ =>
    match wires.find? (fun x => x.id = w) with
    | some x => x.public
    | none => false

/-- Lines 77-80: bucket every bit of the map by its representative, in
`allbits` order. -/
def componentsMap (uf : UF) : List (SigBit × List SigBit) :=
  (ufAllbits uf).foldl
    (fun cm b => dictUpsert cm (canonBit uf b) [] (fun l => poolInsert l b)) []

/-- Lines 81-99: choose the representative of one component: the first
input-port bit, else the first public-named bit, else the first member. -/
def chooseRep (wires : List Wire) (comp : List SigBit) : SigBit :=
  match comp.find? (bitIsInput wires) with
  | some b => b
  | none =>
    match comp.find? (bitIsPublic wires) with
    | some b => b
    | none => comp.headD (SigBit.const St.s0)

/-- Lines 81-109: the member-to-representative bit map, in component
(then member) iteration order; the representative itself is skipped. -/
def buildS2R (wires : List Wire) (uf : UF) : List (SigBit × SigBit) :=
  (componentsMap uf).foldl
    (fun s2r comp =>
      let rep := chooseRep wires comp.2
      comp.2.foldl
        (fun s2r b => if b = rep then s2r else s2r ++ [(b, rep)]) s2r)
    []

/-- The comparator of lines 182-186 (`std::sort`): by the wire of the
first member bit (pointer order modelled as id order), then by the offset
of the first representative bit. -/
def pairLt (a b : SigSpec × SigSpec) : Bool :=
  let d := SigBit.const St.s0
  let aw := match a.1.headD d with | .const _ => 0 | .wbit w _ => w
  let bw := match b.1.headD d with | .const _ => 0 | .wbit w _ => w
  if ¬ aw = bw then decide (aw < bw)
  else
    let ao := match a.2.headD d with | .const _ => 0 | .wbit _ o => o
    let bo := match b.2.headD d with | .const _ => 0 | .wbit _ o => o
    decide (ao < bo)

/-- Stable insertion into a list sorted by the strict order `lt`. -/
def insertSorted (lt : α → α → Bool) (x : α) : List α → List α
  | [] => [x]
  | y :: ys => if lt y x then y :: insertSorted lt x ys else x :: y :: ys

/-- A deterministic (stable) stand-in for `std::sort` with strict
comparator `lt`. -/
def sortByLt (lt : α → α → Bool) (l : List α) : List α :=
  l.foldr (insertSorted lt) []

/-- The wire id of the first bit of a spec (for the coalescing test). -/
def headWireId (s : SigSpec) : Nat :=
  match s.headD (SigBit.const St.s0) with
  | .const _ => 0
  | .wbit w _ => w

/-- The inner state of the coalescing loop: `cur` is the entry being
grown at index `i` of the vector. -/
def coalesceAux (cur : SigSpec × SigSpec) :
    List (SigSpec × SigSpec) → List (SigSpec × SigSpec)
  | [] => [cur]
  | q :: rest =>
    if headWireId cur.1 = headWireId q.1 ∧ headWireId cur.2 = headWireId q.2 then
      coalesceAux (cur.1 ++ q.1, cur.2 ++ q.2) rest
    else
      cur :: coalesceAux q rest

/-- Lines 189-220: merge consecutive entries whose member specs start on
the same wire and whose representative specs start on the same wire. -/
def coalescePairs : List (SigSpec × SigSpec) → List (SigSpec × SigSpec)
  | [] => []
  | p :: rest => coalesceAux p rest

/-- Models `OptMergeWiresPass::execute` on one module (lines 54-235).  Returns the
rewritten module and the `opt.did_something` flag. -/
def opt_merge_wires (m : Module) : Module × Bool :=
  let uf := buildMwSigmap m.connections
  let s2r := buildS2R m.wires uf
  -- lines 113-123: apply the bit map to every cell port
  let cells := m.cells.map
    (fun c => { c with ports := c.ports.map (fun q => (q.1, specReplace s2r q.2)) })
  -- lines 130-150: drop positions whose two sides are sigmap-equal
  let processed := m.connections.map
    (fun c =>
      let z := c.1.zip c.2
      let kept := z.filter (fun p => ¬ (canonBit uf p.1 = canonBit uf p.2))
      (kept, !(z.length == kept.length)))
  let changedWires := (processed.filter (fun p => p.2)).length
  -- lines 152-157: erase connections that became empty
  let conns1 := ((processed.map
      (fun p => (p.1.map Prod.fst, p.1.map Prod.snd))).filter
    (fun c => ¬ c.1 = []))
  -- lines 160-170: rewrite the remaining connections through the bit map
  let conns2 := conns1.map (fun c => (specReplace s2r c.1, specReplace s2r c.2))
  -- lines 176-220: pack the bit map into sorted, coalesced sigspec pairs
  let vec := s2r.map (fun p => (([p.1] : SigSpec), ([p.2] : SigSpec)))
  let vecMerged := coalescePairs (sortByLt pairLt vec)
  -- lines 222-228: connect each member spec to its representative spec
  ({ m with cells := cells, connections := conns2 ++ vecMerged },
   decide (0 < changedWires))

/-! ### Concrete modules used by the merge-wires claims -/

/-- Two private 1-bit wires (ids 0 and 1) connected by `wire1 <- wire0`. -/
def mwPairModule : Module :=
  { wires := [{ id := 0, width := 1, port_input := false, port_output := false, public := false },
              { id := 1, width := 1, port_input := false, port_output := false, public := false }],
    cells := [],
    connections := [([SigBit.wbit 1 0], [SigBit.wbit 0 0])],
    fresh := 2 }

/-- Two unrelated public 1-bit wires `x` (id 0) and `y` (id 1), with
connections `x <- 1'b0` and `y <- 1'b0`. -/
def mwConstModule : Module :=
  { wires := [{ id := 0, width := 1, port_input := false, port_output := false, public := true },
              { id := 1, width := 1, port_input := false, port_output := false, public := true }],
    cells := [],
    connections := [([SigBit.wbit 0 0], [SigBit.const St.s0]),
                    ([SigBit.wbit 1 0], [SigBit.const St.s0])],
    fresh := 2 }

/-- A module with no connections and one cell, used as a witness input. -/
def mwNoConnModule : Module :=
  { wires := [{ id := 0, width := 1, port_input := false, port_output := false, public := true }],
    cells := [{ id := 1, ctype := CellType.notOp,
                ports := [(PortName.A, [SigBit.wbit 0 0]), (PortName.Y, [SigBit.wbit 0 0])] }],
    connections := [],
    fresh := 2 }

/-- The 2-bit connection `{w0[0], w1[0]} <- {w2[0], 1'b0}` whose second
position carries a constant. -/
def mwMixedConn : SigSpec × SigSpec :=
  ([SigBit.wbit 0 0, SigBit.wbit 1 0], [SigBit.wbit 2 0, SigBit.const St.s0])

/-! ### Helper lemmas -/

theorem mem_foldl_append_connUnions (l : List (SigSpec × SigSpec))
    (init : List (SigBit × SigBit)) (p : SigBit × SigBit) (hp : p ∈ init) :
    p ∈ l.foldl (fun acc c => acc ++ connUnions c) init := by
  induction l generalizing init with
  | nil => exact hp
  | cons c l ih => exact ih _ (List.mem_append_left _ hp)

theorem mem_foldl_append_connUnions_of_mem (l : List (SigSpec × SigSpec))
    (c : SigSpec × SigSpec) (hc : c ∈ l) (p : SigBit × SigBit)
    (hp : p ∈ connUnions c) (init : List (SigBit × SigBit)) :
    p ∈ l.foldl (fun acc c => acc ++ connUnions c) init := by
  induction l generalizing init with
  | nil => cases hc
  | cons d l ih =>
    rcases List.mem_cons.mp hc with h | h
    · subst h
      exact mem_foldl_append_connUnions l _ p (List.mem_append_right _ hp)
    · exact ih h _

theorem mem_sigmapUnions_of_mem_connUnions (conns : List (SigSpec × SigSpec))
    (c : SigSpec × SigSpec) (hc : c ∈ conns) (p : SigBit × SigBit)
    (hp : p ∈ connUnions c) : p ∈ sigmapUnions conns :=
  mem_foldl_append_connUnions_of_mem conns c hc p hp []

@[simp] theorem specReplace_nil (s : SigSpec) : specReplace [] s = s := by
  unfold specReplace
  simp [dictGet?]

theorem opt_merge_wires_nil_connections (m : Module) (h : m.connections = []) :
    opt_merge_wires m = (m, false) := by
  unfold opt_merge_wires
  rw [h]
  simp [buildMwSigmap, sigmapUnions, buildS2R, componentsMap, ufAllbits,
        sortByLt, coalescePairs]
  rw [← h]

/-- The wire table used by the representative-choice witness: wire 0 is
private and not a port, wire 1 is an input port. -/
def mwRepWires : List Wire :=
  [{ id := 0, width := 1, port_input := false, port_output := false, public := false },
   { id := 1, width := 1, port_input := true, port_output := false, public := true }]

/-! ### Claim theorems for `opt_merge_wires` -/

/-- C1, counterexample: the spec says exclusion of constants from SigMap
unification is decided per bit position.  In the connection
`{w0[0], w1[0]} <- {w2[0], 1'b0}`, position 0 has wire bits on both
sides, yet the pair `(w0[0], w2[0])` is never unioned: lines 60-67 skip
the entire connection because position 1 carries a constant. -/
theorem mw_constant_exclusion_not_per_bit :
    (mwMixedConn.1.headD (SigBit.const St.s0)).isWire = true ∧
    (mwMixedConn.2.headD (SigBit.const St.s0)).isWire = true ∧
    (mwMixedConn.1.headD (SigBit.const St.s0),
     mwMixedConn.2.headD (SigBit.const St.s0)) ∉ sigmapUnions [mwMixedConn] := by
  decide

/-- C1, amended: exclusion of constants is decided per connection.  A
connection in which every position of both sides is a wire bit has every
one of its bit pairs unioned; a connection in which any position of
either side is a constant contributes no unions at all. -/
theorem mw_constant_exclusion_per_connection (conns : List (SigSpec × SigSpec))
    (c : SigSpec × SigSpec) (hc : c ∈ conns) (p : SigBit × SigBit)
    (hp : p ∈ c.1.zip c.2) :
    (connectionAllWire c = true → p ∈ sigmapUnions conns) ∧
    (connectionAllWire c = false → connUnions c = []) := by
  constructor
  · intro hall
    exact mem_sigmapUnions_of_mem_connUnions conns c hc p
      (by simp [connUnions, hall, hp])
  · intro hnall
    simp [connUnions, hnall]

/-- Witness for `mw_constant_exclusion_per_connection` at the concrete
mixed connection. -/
theorem mw_constant_exclusion_per_connection_witness :
    mwMixedConn ∈ [mwMixedConn] ∧
    (SigBit.wbit 0 0, SigBit.wbit 2 0) ∈ mwMixedConn.1.zip mwMixedConn.2 ∧
    ((connectionAllWire mwMixedConn = true →
        (SigBit.wbit 0 0, SigBit.wbit 2 0) ∈ sigmapUnions [mwMixedConn]) ∧
     (connectionAllWire mwMixedConn = false → connUnions mwMixedConn = [])) :=
  ⟨by decide, by decide,
   mw_constant_exclusion_per_connection [mwMixedConn] mwMixedConn (by decide)
     (SigBit.wbit 0 0, SigBit.wbit 2 0) (by decide)⟩

/-- C4, counterexample: `opt_merge_wires` is not idempotent.  On a module
with two private wires connected by `w1 <- w0`, the first run elects `w1`
as representative and emits `w0 <- w1`; the second run re-elects `w0`
(the member side of the emitted connection registers first in the map)
and emits `w1 <- w0`, a different module. -/
theorem mw_not_idempotent :
    ¬ ((opt_merge_wires (opt_merge_wires mwPairModule).1).1
        = (opt_merge_wires mwPairModule).1) := by
  decide

/-- C4, amended: merge-wires is idempotent on modules without
connections (in general the second run may re-elect a different
representative of a class and swap member and representative in the
emitted connections and in cell ports). -/
theorem mw_idempotent_without_connections (m : Module)
    (h : m.connections = []) :
    (opt_merge_wires (opt_merge_wires m).1).1 = (opt_merge_wires m).1 := by
  have h1 := opt_merge_wires_nil_connections m h
  rw [h1]
  show (opt_merge_wires m).1 = m
  rw [h1]

/-- Witness for `mw_idempotent_without_connections` at a concrete
connection-free module. -/
theorem mw_idempotent_without_connections_witness :
    mwNoConnModule.connections = [] ∧
    (opt_merge_wires (opt_merge_wires mwNoConnModule).1).1
      = (opt_merge_wires mwNoConnModule).1 :=
  ⟨rfl, mw_idempotent_without_connections mwNoConnModule rfl⟩

/-- C6: constant isolation.  On the module with unrelated wires `x`, `y`
and connections `x <- 1'b0`, `y <- 1'b0`, merge-wires is the identity:
`x` and `y` stay distinct wires and nothing is rewritten. -/
theorem mw_constant_isolation :
    opt_merge_wires mwConstModule = (mwConstModule, false) := by
  decide

/-- C7: the representative of an equivalence class is a member of the
class; it is an input-port bit whenever the class contains one, and
otherwise a public-named bit whenever the class contains one. -/
theorem mw_representative_preference (wires : List Wire) (comp : List SigBit)
    (h : comp ≠ []) :
    chooseRep wires comp ∈ comp ∧
    ((∃ b ∈ comp, bitIsInput wires b = true) →
       bitIsInput wires (chooseRep wires comp) = true) ∧
    ((∀ b ∈ comp, bitIsInput wires b = false) →
      (∃ b ∈ comp, bitIsPublic wires b = true) →
       bitIsPublic wires (chooseRep wires comp) = true) := by
  unfold chooseRep
  cases hin : comp.find? (bitIsInput wires) with
  | some b =>
    refine ⟨List.mem_of_find?_eq_some hin, fun _ => List.find?_some hin,
            fun hno _ => ?_⟩
    have hb := List.find?_some hin
    have := hno b (List.mem_of_find?_eq_some hin)
    simp [this] at hb
  | none =>
    cases hpub : comp.find? (bitIsPublic wires) with
    | some b =>
      refine ⟨List.mem_of_find?_eq_some hpub, fun hex => ?_,
              fun _ _ => List.find?_some hpub⟩
      obtain ⟨a, ha, hai⟩ := hex
      have := List.find?_eq_none.mp hin a ha
      simp [hai] at this
    | none =>
      cases comp with
      | nil => exact absurd rfl h
      | cons a l =>
        refine ⟨by simp, fun hex => ?_, fun _ hex => ?_⟩
        · obtain ⟨x, hx, hxi⟩ := hex
          have := List.find?_eq_none.mp hin x hx
          simp [hxi] at this
        · obtain ⟨x, hx, hxi⟩ := hex
          have := List.find?_eq_none.mp hpub x hx
          simp [hxi] at this

/-- Witness for `mw_representative_preference`: a two-bit class where the
second bit lies on an input-port wire. -/
theorem mw_representative_preference_witness :
    ([SigBit.wbit 0 0, SigBit.wbit 1 0] : List SigBit) ≠ [] ∧
    (chooseRep mwRepWires [SigBit.wbit 0 0, SigBit.wbit 1 0]
        ∈ [SigBit.wbit 0 0, SigBit.wbit 1 0] ∧
     ((∃ b ∈ [SigBit.wbit 0 0, SigBit.wbit 1 0], bitIsInput mwRepWires b = true) →
        bitIsInput mwRepWires (chooseRep mwRepWires [SigBit.wbit 0 0, SigBit.wbit 1 0]) = true) ∧
     ((∀ b ∈ [SigBit.wbit 0 0, SigBit.wbit 1 0], bitIsInput mwRepWires b = false) →
       (∃ b ∈ [SigBit.wbit 0 0, SigBit.wbit 1 0], bitIsPublic mwRepWires b = true) →
        bitIsPublic mwRepWires (chooseRep mwRepWires [SigBit.wbit 0 0, SigBit.wbit 1 0]) = true)) :=
  ⟨by decide,
   mw_representative_preference mwRepWires [SigBit.wbit 0 0, SigBit.wbit 1 0] (by decide)⟩

/-! ### The `tribuf` pass

Direct translation of `TribufWorker` (`src/passes/techmap/tribuf.cc`).
The worker's `SigMap` is built once from the module's connection list at
construction and never rebuilt (`sigmap.set(module)` at line 517 is
commented out in the source); it is passed to every function as `uf`.
Cells inside the `know_muxes` / `driving_cells` indexes are referenced by
id (pointer identity in the source). -/

instance : Inhabited Cell := ⟨{ id := 0, ctype := CellType.other 0, ports := [] }⟩

/-- Models `TribufConfig` (lines 26-41). -/
structure TribufConfig where
  merge_mode : Bool := false
  logic_mode : Bool := false
  formal_mode : Bool := false
  propagate : Bool := false
  force : Bool := false
deriving DecidableEq

/-- The worker's SigMap (`SigMap sigmap(module)`): every connection is
added, constants included.  Modelled from the spec (§4.1). -/
def buildFullSigmap (conns : List (SigSpec × SigSpec)) : UF :=
  conns.foldl (fun u c => ufAddSpec u c.1 c.2) []

def isTribufType (t : CellType) : Bool :=
  t = CellType.tribuf || t = CellType.tbufGate

def isMuxType (t : CellType) : Bool :=
  t = CellType.mux || t = CellType.muxGate

/-- Models `cell->type == ID($tribuf) ? ID::EN : ID::E` (merge / propagation). -/
def triEnPort (t : CellType) : PortName :=
  if t = CellType.tribuf then PortName.EN else PortName.E

/-- Models `is_all_z` (lines 57-63). -/
def isAllZ (s : SigSpec) : Bool :=
  s.all (fun b => b = SigBit.const St.sz)

/-- The mutable worker state: module, `know_muxes`, `driving_cells`,
`tribuf_signals`, `added_tribufs`, the `tribuf.added_something`
scratchpad value and `output_bits`. -/
structure TState where
  module : Module
  km : List (SigBit × List Nat)
  dc : List (SigBit × List Nat)
  ts : List SigBit
  added : List SigBit
  sp : Bool
  outBits : List SigBit
deriving DecidableEq

/-- Insert a cell id into an index entry (`index[bit].insert(cell)`). -/
def idxInsert (d : List (SigBit × List Nat)) (b : SigBit) (cid : Nat) :
    List (SigBit × List Nat) :=
  dictUpsert d b [] (fun l => poolInsert l cid)

/-- Insert a cell id at every wire bit of a spec
(`for bit in sig: if bit.wire: index[bit].insert(cell)`). -/
def idxInsertWireBits (d : List (SigBit × List Nat)) (s : SigSpec) (cid : Nat) :
    List (SigBit × List Nat) :=
  s.foldl (fun d b => if b.isWire then idxInsert d b cid else d) d

/-- Models `cell->type` by id (dangling ids yield an inert type). -/
def cellTypeOf (m : Module) (cid : Nat) : CellType :=
  match m.cell? cid with
  | some c => c.ctype
  | none => CellType.other 0

/-- Models `cell->getPort(p)` by id. -/
def getPortOf (m : Module) (cid : Nat) (p : PortName) : SigSpec :=
  match m.cell? cid with
  | some c => c.getPort p
  | none => []

/-- Accumulator of the recognition loop (lines 153-214): the rewritten
cell list, the fresh-id counter, `tribuf_signals`, `know_muxes` and the
scratchpad flag. -/
structure RecogAcc where
  cells : List Cell
  fresh : Nat
  ts : List SigBit
  km : List (SigBit × List Nat)
  sp : Bool
deriving DecidableEq

/-- Lines 183-197 applied to the cell itself: move `B` to `A`, `S` to the
enable port, drop `B` and `S`, and retype to the tri-state type. -/
def rewriteZA (c : Cell) : Cell :=
  let en_port := if c.ctype = CellType.mux then PortName.EN else PortName.E
  let tri_type := if c.ctype = CellType.mux then CellType.tribuf else CellType.tbufGate
  let c := c.setPort PortName.A (c.getPort PortName.B)
  let c := c.setPort en_port (c.getPort PortName.S)
  let c := (c.unsetPort PortName.B).unsetPort PortName.S
  { c with ctype := tri_type }

/-- One iteration of the recognition loop (lines 153-214).  The `$not`
cell created in the `B`-all-z branch is placed directly after its mux. -/
def recogCell (cfg : TribufConfig) (uf : UF) (acc : RecogAcc) (c : Cell) : RecogAcc :=
  if isTribufType c.ctype then
    -- lines 154-160
    let ts := (canonSpec uf (c.getPort PortName.Y)).foldl poolInsert acc.ts
    let km := idxInsertWireBits acc.km (canonSpec uf (c.getPort PortName.A)) c.id
    { acc with cells := acc.cells ++ [c], ts := ts, km := km }
  else if isMuxType c.ctype then
    let zA := isAllZ (c.getPort PortName.A)
    let zB := isAllZ (c.getPort PortName.B)
    -- lines 169-176
    let km :=
      if cfg.propagate && !zA && !zB then
        idxInsertWireBits
          (idxInsertWireBits acc.km (canonSpec uf (c.getPort PortName.A)) c.id)
          (canonSpec uf (c.getPort PortName.B)) c.id
      else acc.km
    if zA && zB then
      -- lines 178-181: remove the cell
      { acc with km := km }
    else if zA then
      -- lines 183-197
      let c' := rewriteZA c
      let ts := (canonSpec uf (c'.getPort PortName.Y)).foldl poolInsert acc.ts
      let km :=
        if cfg.propagate then idxInsertWireBits km (canonSpec uf (c'.getPort PortName.A)) c.id
        else km
      { acc with cells := acc.cells ++ [c'], ts := ts, km := km, sp := true }
    else if zB then
      -- lines 199-212: enable is a fresh `$not` of `S`
      let en_port := if c.ctype = CellType.mux then PortName.EN else PortName.E
      let tri_type := if c.ctype = CellType.mux then CellType.tribuf else CellType.tbufGate
      let notY : Wire := { id := acc.fresh, width := (c.getPort PortName.S).length,
                           port_input := false, port_output := false, public := false }
      let notCell : Cell := { id := acc.fresh + 1, ctype := CellType.notOp,
                              ports := [(PortName.A, c.getPort PortName.S),
                                        (PortName.Y, wireSpec notY)] }
      let c' := c.setPort en_port (wireSpec notY)
      let c' := (c'.unsetPort PortName.B).unsetPort PortName.S
      let c' := { c' with ctype := tri_type }
      let ts := (canonSpec uf (c'.getPort PortName.Y)).foldl poolInsert acc.ts
      let km :=
        if cfg.propagate then idxInsertWireBits km (canonSpec uf (c'.getPort PortName.A)) c.id
        else km
      { acc with cells := acc.cells ++ [c', notCell], fresh := acc.fresh + 2,
                 ts := ts, km := km, sp := true }
    else
      { acc with cells := acc.cells ++ [c], km := km }
  else
    { acc with cells := acc.cells ++ [c] }

/-- The recognition loop over all (selected) cells. -/
def recognitionFold (cfg : TribufConfig) (uf : UF) (cells : List Cell)
    (acc : RecogAcc) : RecogAcc :=
  cells.foldl (recogCell cfg uf) acc

/-- Lines 147-151: bits of output-port wires. -/
def collectOutputBits (uf : UF) (m : Module) : List SigBit :=
  m.wires.foldl
    (fun ob w =>
      if w.port_output then (canonSpec uf (wireSpec w)).foldl poolInsert ob else ob)
    []

/-- Lines 216-221: populate `driving_cells` from every output port. -/
def buildDrivingCells (uf : UF) (cells : List Cell) : List (SigBit × List Nat) :=
  cells.foldl
    (fun dc c =>
      c.ports.foldl
        (fun dc q =>
          if isOutputPort q.1 then idxInsertWireBits dc (canonSpec uf q.2) c.id
          else dc)
        dc)
    []

/-- Boolean membership of a cell id in an index entry. -/
def cid_mem (cid : Nat) (l : List Nat) : Bool :=
  l.contains cid

/-- Models `check_know_muxes` (lines 66-139): the debug invariant, as a boolean
(`false` corresponds to `log_error`). -/
def checkKnowMuxes (cfg : TribufConfig) (uf : UF) (st : TState) : Bool :=
  if !cfg.propagate then true
  else
    -- lines 71-87: every mux in a know_muxes entry reads the entry's bit
    (st.km.all (fun e => e.2.all (fun cid =>
      if isMuxType (cellTypeOf st.module cid) then
        !(specExtract (canonSpec uf (getPortOf st.module cid PortName.A)) [e.1]).isEmpty ||
        !(specExtract (canonSpec uf (getPortOf st.module cid PortName.B)) [e.1]).isEmpty
      else true))) &&
    -- lines 89-106: every wire bit read by a mux is a know_muxes entry
    (st.module.cells.all (fun c =>
      if isMuxType c.ctype then
        [c.getPort PortName.A, c.getPort PortName.B].all (fun sig =>
          (canonSpec uf sig).all (fun b =>
            if b.isWire then
              dictHas st.km b && cid_mem c.id (dictAt st.km b)
            else true))
      else true)) &&
    -- lines 109-124: every cell in a driving_cells entry drives the bit
    (st.dc.all (fun e => e.2.all (fun cid =>
      match st.module.cell? cid with
      | some c => c.ports.any (fun q =>
          isOutputPort q.1 && !(specExtract (canonSpec uf q.2) [e.1]).isEmpty)
      | none => false))) &&
    -- lines 125-138: every driven wire bit is a driving_cells entry
    (st.module.cells.all (fun c =>
      c.ports.all (fun q =>
        if isOutputPort q.1 then
          (canonSpec uf q.2).all (fun b =>
            if b.isWire then dictHas st.dc b && cid_mem c.id (dictAt st.dc b)
            else true)
        else true)))

/-- Result of a worker step: normal continuation or a `log_error` abort
carrying the state at the abort. -/
inductive PassOut where
  | ok (st : TState)
  | fatal (st : TState)
deriving DecidableEq

/-! #### `TribufWorker::merge` (lines 515-782) -/

/-- Lines 518-527: whether the merged result is emitted as plain logic. -/
def mergeNoTribuf (cfg : TribufConfig) (outBits : List SigBit) (sig : SigBit) : Bool :=
  let nt :=
    if cfg.logic_mode && !cfg.formal_mode then
      if !cfg.force && outBits.contains sig then false else true
    else false
  if cfg.formal_mode then true else nt

/-- Line 529: the drivers of the merged bit. -/
def mergeCells (dc : List (SigBit × List Nat)) (sig : SigBit) : List Nat :=
  dictAt dc sig

/-- Lines 547-554: every bit driven by one of the drivers of `sig`. -/
def mergeSiblings (uf : UF) (m : Module) (dc : List (SigBit × List Nat))
    (sig : SigBit) : List SigBit :=
  (mergeCells dc sig).foldl
    (fun sb cid => (canonSpec uf (getPortOf m cid PortName.Y)).foldl poolInsert sb) []

/-- Lines 557-566: every driver of every sibling. -/
def mergeDrivers (uf : UF) (m : Module) (dc : List (SigBit × List Nat))
    (sig : SigBit) : List Nat :=
  (mergeSiblings uf m dc sig).foldl (fun dr b => poolInsertMany dr (dictAt dc b)) []

/-- One iteration of the partition loop of lines 573-579: a driver whose
canonicalized enable is not exactly one bit wide is the `log_error`
(modelled as `none`). -/
def partitionStep (uf : UF) (m : Module)
    (acc : Option (List (SigBit × List Nat))) (cid : Nat) :
    Option (List (SigBit × List Nat)) :=
  match acc with
  | none => none
  | some parts =>
    let e := canonSpec uf (getPortOf m cid (triEnPort (cellTypeOf m cid)))
    if e.length = 1 then
      some (dictUpsert parts (e.headD (SigBit.const St.s0)) []
             (fun l => poolInsert l cid))
    else none

/-- Lines 572-579: partition the drivers by their (sigmap-canonical)
1-bit enable; `none` models the `log_error` on a wider enable. -/
def partitionDrivers (uf : UF) (m : Module) (drivers : List Nat) :
    Option (List (SigBit × List Nat)) :=
  drivers.foldl (partitionStep uf m) (some [])

/-- The merge-internal mutable state: module, `driving_cells`, scratchpad. -/
abbrev MSt := Module × List (SigBit × List Nat) × Bool

/-- Lines 666-676: pull the matching indices (descending) out of the
`A`/`Y` ports of a partially matching tri-state. -/
def mergeSplitLoop : Nat → List Nat → SigSpec → SigSpec → SigSpec → SigSpec →
    SigSpec × SigSpec × SigSpec × SigSpec
  | 0, _, ea, ey, pa, py => (ea, ey, pa, py)
  | i + 1, ms, ea, ey, pa, py =>
    if ms.getLast? = some i then
      let ea := ea ++ specExtractIdx pa i
      let ey := ey ++ specExtractIdx py i
      let pa := specRemoveIdx pa i
      let py := specRemoveIdx py i
      let ms := ms.dropLast
      if ms.isEmpty then (ea, ey, pa, py)
      else mergeSplitLoop i ms ea ey pa py
    else mergeSplitLoop i ms ea ey pa py

/-- Lines 643-687: process one tri-state of a partition: keep it whole if
all its output bits lie in the intersection, abort if none does, split it
otherwise.  Returns the updated state and the grown `to_be_merged`. -/
def mergeCellStep (uf : UF) (en : SigBit) (intersectionL : List SigBit)
    (st : MSt) (tbm : List Nat) (cid : Nat) : Except MSt (MSt × List Nat) :=
  let (m, dc, sp) := st
  let output := canonSpec uf (getPortOf m cid PortName.Y)
  let matching := (List.range output.length).filter
    (fun i => (output.getD i (SigBit.const St.s0)) ∈ intersectionL)
  if matching.length = output.length then
    -- lines 651-656: both full-match branches keep the cell whole
    .ok ((m, dc, sp), poolInsert tbm cid)
  else if matching.length = 0 then
    -- lines 657-658: `log_error("No matching bits?!")`
    .error (m, dc, sp)
  else
    -- lines 659-686
    let port_a := getPortOf m cid PortName.A
    let port_y := getPortOf m cid PortName.Y
    let (ea, ey, pa, py) := mergeSplitLoop port_a.length matching [] [] port_a port_y
    let m := m.replaceCell cid
      (fun c => (c.setPort PortName.A pa).setPort PortName.Y py)
    let (newT, m) := m.addCell CellType.tribuf
      [(PortName.A, ea), (PortName.EN, [en]), (PortName.Y, ey)]
    .ok ((m, dc, sp), poolInsert tbm newT.id)

/-- Fold `mergeCellStep` over a partition's cells. -/
def mergeCellsLoop (uf : UF) (en : SigBit) (intersectionL : List SigBit) :
    List Nat → MSt → List Nat → Except MSt (MSt × List Nat)
  | [], st, tbm => .ok (st, tbm)
  | cid :: rest, st, tbm =>
    match mergeCellStep uf en intersectionL st tbm cid with
    | .error e => .error e
    | .ok (st', tbm') => mergeCellsLoop uf en intersectionL rest st' tbm'

/-- Lines 689-699: concatenate the `A`/`Y` ports of the `to_be_merged`
cells, unregister and remove them. -/
def mergeAbsorb (tbm : List Nat) (st : MSt) : MSt × SigSpec × SigSpec :=
  tbm.foldl
    (fun (acc : MSt × SigSpec × SigSpec) cid =>
      let ((m, dc, sp), ma, my) := acc
      let ay := getPortOf m cid PortName.Y
      let ma := ma ++ getPortOf m cid PortName.A
      let my := my ++ ay
      let dc := ay.foldl
        (fun dc b =>
          if dictHas dc b then dictAdjust dc b (fun l => poolErase l cid) else dc)
        dc
      ((m.removeCell cid, dc, sp), ma, my))
    (st, [], [])

/-- Lines 641-703: per-enable processing; accumulates the fresh
per-partition tri-states (`cells` after line 702). -/
def mergeEnLoop (uf : UF) (intersectionL : List SigBit)
    (partitions : List (SigBit × List Nat)) :
    List SigBit → MSt → List Nat → Except MSt (MSt × List Nat)
  | [], st, cells2 => .ok (st, cells2)
  | en :: rest, st, cells2 =>
    match mergeCellsLoop uf en intersectionL (dictAt partitions en) st [] with
    | .error e => .error e
    | .ok (st1, tbm) =>
      let (st2, ma, my) := mergeAbsorb tbm st1
      let (m, dc, sp) := st2
      let (nt, m) := m.addCell CellType.tribuf
        [(PortName.A, ma), (PortName.EN, [en]), (PortName.Y, my)]
      mergeEnLoop uf intersectionL partitions rest (m, dc, sp) (poolInsert cells2 nt.id)

/-- Lines 710-737: under `-formal` with at least two merged tri-states,
emit one driver-conflict assertion per tri-state. -/
def mergeFormal (cells2 : List Nat) (m0 : Module) (sp0 : Bool) : Module × Bool :=
  cells2.foldl
    (fun (acc : Module × Bool) cid =>
      let (m, _) := acc
      let others := cells2.foldl
        (fun os ocid =>
          if ocid = cid then os
          else os ++ getPortOf m ocid
            (if cellTypeOf m ocid = CellType.tribuf then PortName.EN else PortName.E))
        []
      let cell_s := getPortOf m cid
        (if cellTypeOf m cid = CellType.tribuf then PortName.EN else PortName.E)
      let (orw, m) := m.addWire 1
      let (_, m) := m.addCell CellType.reduceOr
        [(PortName.A, others), (PortName.Y, wireSpec orw)]
      let (cw, m) := m.addWire 1
      let (_, m) := m.addCell CellType.andOp
        [(PortName.A, cell_s), (PortName.B, wireSpec orw), (PortName.Y, wireSpec cw)]
      let (nw, m) := m.addWire 1
      let (_, m) := m.addCell CellType.notOp
        [(PortName.A, wireSpec cw), (PortName.Y, wireSpec nw)]
      let srcAttr := match m.cell? cid with | some c => c.src | none => 0
      let ac : Cell := { id := m.fresh, ctype := CellType.assertOp,
                         ports := [(PortName.A, wireSpec nw),
                                   (PortName.EN, [SigBit.const St.s1])],
                         keep := true, src := srcAttr }
      let m := { m with cells := m.cells ++ [ac], fresh := m.fresh + 1 }
      (m, true))
    (m0, sp0)

/-- Lines 739-781: build the priority mux over the per-partition
tri-states and emit either plain logic or the final merged tri-state. -/
def mergeFinal (uf : UF) (no_tribuf : Bool) (intersection_sig : SigSpec)
    (cells2 : List Nat) (st : MSt) : MSt :=
  let (m, dc, sp) := st
  let (pmux_b, pmux_s, m) := cells2.foldl
    (fun (acc : SigSpec × SigSpec × Module) cid =>
      let (pb, ps, m) := acc
      let ps := ps ++ getPortOf m cid
        (if cellTypeOf m cid = CellType.tribuf then PortName.EN else PortName.E)
      let pb := pb ++ getPortOf m cid PortName.A
      (pb, ps, m.removeCell cid))
    ([], [], m)
  let (muxout, m, dc) :=
    if pmux_s.length > 1 then
      let (py, m) := m.addWire intersection_sig.length
      let (pg, m) := m.addCell CellType.pmux
        [(PortName.A, List.replicate intersection_sig.length (SigBit.const St.sx)),
         (PortName.B, pmux_b), (PortName.S, pmux_s), (PortName.Y, wireSpec py)]
      let dc := idxInsertWireBits dc (canonSpec uf (wireSpec py)) pg.id
      (wireSpec py, m, dc)
    else (pmux_b, m, dc)
  if no_tribuf then
    -- lines 764-766
    (m.connect intersection_sig muxout, dc, sp)
  else
    -- lines 767-781
    let (rw, m) := m.addWire 1
    let (rg, m) := m.addCell CellType.reduceOr
      [(PortName.A, pmux_s), (PortName.Y, wireSpec rw)]
    let (nt, m) := m.addCell CellType.tribuf
      [(PortName.A, muxout), (PortName.EN, wireSpec rw), (PortName.Y, intersection_sig)]
    let dc := intersection_sig.foldl (fun dc b => dictAdjust dc b (fun _ => [nt.id])) dc
    let dc := idxInsertWireBits dc (canonSpec uf (wireSpec rw)) rg.id
    (m, dc, true)

/-- Models `TribufWorker::merge` (lines 515-782). -/
def merge (cfg : TribufConfig) (uf : UF) (sig : SigBit) (st : TState) : PassOut :=
  let no_tribuf := mergeNoTribuf cfg st.outBits sig
  let cells := mergeCells st.dc sig
  -- lines 531-532
  if cells.length ≤ 1 && !no_tribuf then .ok st
  -- lines 539-544
  else if cells.any (fun cid => !(isTribufType (cellTypeOf st.module cid))) then .ok st
  else
    let siblings := mergeSiblings uf st.module st.dc sig
    -- lines 557-566
    if siblings.any (fun b =>
        (dictAt st.dc b).any (fun cid => !(isTribufType (cellTypeOf st.module cid)))) then
      .ok st
    else
      match partitionDrivers uf st.module (mergeDrivers uf st.module st.dc sig) with
      | none => .fatal st
      | some partitions =>
        -- lines 588-596
        let en_driving_this := partitions.foldl
          (fun ens pr => if pr.2.any (fun cid => cid_mem cid cells) then poolInsert ens pr.1 else ens)
          []
        -- lines 604-613
        let partitions_sigbits := en_driving_this.map
          (fun en =>
            (en, (dictAt partitions en).foldl
              (fun bits cid =>
                (canonSpec uf (getPortOf st.module cid PortName.Y)).foldl poolInsert bits)
              []))
        -- lines 623-635
        let intersectionL := siblings.filter
          (fun b => partitions_sigbits.all (fun pr => pr.2.contains b))
        let intersection_sig : SigSpec := intersectionL
        match mergeEnLoop uf intersectionL partitions en_driving_this
            (st.module, st.dc, st.sp) [] with
        | .error (m, dc, sp) => .fatal { st with module := m, dc := dc, sp := sp }
        | .ok ((m, dc, sp), cells2) =>
          let (m, sp) :=
            if cfg.formal_mode && cells2.length ≥ 2 then mergeFormal cells2 m sp
            else (m, sp)
          let (m, dc, sp) := mergeFinal uf no_tribuf intersection_sig cells2 (m, dc, sp)
          .ok { st with module := m, dc := dc, sp := sp }

/-! #### Propagation (lines 225-498)

`propagateMuxReader` is the body of the reader loop for a downstream
mux (lines 284-416), `propagateTribufReader` for a downstream tri-state
(lines 417-491).  `it` is the worklist bit being propagated, `tid` the
id of its (unique) driving tri-state, `rid` the reader cell id.  The
upstream tri-state is *not* removed afterwards (lines 494-495 are
commented out in the source). -/

/-- Lines 321-338: the downstream mux consumes exactly the tri-state's
bits: rewrite it in place onto the fresh output wire `y3`. -/
def muxRewriteFull (uf : UF) (rid : Nat) (is_a : Bool) (extracted_x : SigSpec)
    (y3 : Wire) (input_y y2 : SigSpec) (m : Module)
    (km dc : List (SigBit × List Nat)) :
    Module × List (SigBit × List Nat) × List (SigBit × List Nat) :=
  let m := m.replaceCell rid
    (fun c => (c.setPort (if is_a then PortName.A else PortName.B) extracted_x).setPort
                PortName.Y (wireSpec y3))
  let km := (canonSpec uf input_y).foldl
    (fun km b => if dictHas km b then dictAdjust km b (fun l => poolErase l rid) else km)
    km
  let km := idxInsertWireBits km (canonSpec uf extracted_x) rid
  let dc := (canonSpec uf y2).foldl
    (fun dc b => dictUpsert dc b [] (fun l => poolErase l rid)) dc
  let dc := (canonSpec uf (wireSpec y3)).foldl
    (fun dc b => dictUpsert dc b [] (fun l => poolInsert l rid)) dc
  (m, km, dc)

/-- Lines 339-389: only part of the mux consumes the tri-state's bits:
shrink the mux to the residual bits and add a fresh mux for the
intersecting ones. -/
def muxRewriteSplit (uf : UF) (rid : Nat) (is_a : Bool) (extracted_x : SigSpec)
    (y3 : Wire) (input_y extracted_y y2 extracted_y2 : SigSpec) (m : Module)
    (km dc : List (SigBit × List Nat)) :
    Module × List (SigBit × List Nat) × List (SigBit × List Nat) :=
  let a := getPortOf m rid PortName.A
  let b := getPortOf m rid PortName.B
  let extracted_a := specExtractOther input_y extracted_y a
  let extracted_b := specExtractOther input_y extracted_y b
  let a := specRemove a extracted_a
  let b := specRemove b extracted_b
  let y2r := specRemove y2 extracted_y2
  let m := m.replaceCell rid
    (fun c => { ((c.setPort PortName.A a).setPort PortName.B b).setPort PortName.Y y2r with
                widthParam := extracted_y.length })
  let cm := m.addCell (CellType.mux)
    [(PortName.A, if is_a then extracted_x else extracted_a),
     (PortName.B, if is_a then extracted_b else extracted_x),
     (PortName.S, getPortOf m rid PortName.S),
     (PortName.Y, wireSpec y3)]
  let newCell := cm.1
  let m := cm.2
  let km := (canonSpec uf extracted_a).foldl
    (fun km b =>
      if dictHas km b then
        (if b.isWire then dictAdjust km b (fun l => poolErase l rid) else km)
      else km)
    km
  let km := (canonSpec uf extracted_b).foldl
    (fun km b =>
      if dictHas km b then
        (if b.isWire then dictAdjust km b (fun l => poolErase l rid) else km)
      else km)
    km
  let km := idxInsertWireBits km (canonSpec uf (getPortOf m newCell.id PortName.A)) newCell.id
  let km := idxInsertWireBits km (canonSpec uf (getPortOf m newCell.id PortName.B)) newCell.id
  let dc := (canonSpec uf extracted_y2).foldl
    (fun dc b => dictUpsert dc b [] (fun l => poolErase l rid)) dc
  let dc := (canonSpec uf (wireSpec y3)).foldl
    (fun dc b => dictUpsert dc b [] (fun l => poolInsert l newCell.id)) dc
  (m, km, dc)

/-- Lines 390-415: build the propagated enable (`E || S` or `E || !S`),
add the fresh downstream tri-state on `extracted_y2`, and register the
new tri-state output bits in `tribuf_signals` / `added_tribufs` /
`driving_cells`. -/
def muxFinishTribuf (uf : UF) (en1_port : PortName) (tid rid : Nat) (is_a : Bool)
    (y3 : Wire) (extracted_y2 : SigSpec) (st : TState) : TState :=
  let m := st.module
  let dc := st.dc
  let gate :=
    if !is_a then
      let wm1 := m.addWire 1
      let not_y := wm1.1
      let cm1 := wm1.2.addCell CellType.notOp
        [(PortName.A, getPortOf wm1.2 rid PortName.S), (PortName.Y, wireSpec not_y)]
      let wm2 := cm1.2.addWire 1
      let or_y := wm2.1
      let cm2 := wm2.2.addCell CellType.orOp
        [(PortName.A, getPortOf wm2.2 tid en1_port), (PortName.B, wireSpec not_y),
         (PortName.Y, wireSpec or_y)]
      let dc := (canonSpec uf (wireSpec not_y)).foldl
        (fun dc b => dictUpsert dc b [] (fun l => poolInsert l cm1.1.id)) dc
      (or_y, cm2.1.id, cm2.2, dc)
    else
      let wm2 := m.addWire 1
      let or_y := wm2.1
      let cm2 := wm2.2.addCell CellType.orOp
        [(PortName.A, getPortOf wm2.2 tid en1_port),
         (PortName.B, getPortOf wm2.2 rid PortName.S),
         (PortName.Y, wireSpec or_y)]
      (or_y, cm2.1.id, cm2.2, dc)
  let or_y := gate.1
  let orGateId := gate.2.1
  let cm3 := gate.2.2.1.addCell CellType.tribuf
    [(PortName.A, wireSpec y3), (PortName.EN, wireSpec or_y),
     (PortName.Y, extracted_y2)]
  let newTribuf := cm3.1
  let m := cm3.2
  let dc := (canonSpec uf (wireSpec or_y)).foldl
    (fun dc b => dictUpsert dc b [] (fun l => poolInsert l orGateId)) gate.2.2.2
  -- lines 411-415
  let tad := (canonSpec uf extracted_y2).foldl
    (fun (acc : List SigBit × List SigBit × List (SigBit × List Nat)) b =>
      (poolInsert acc.1 b, poolInsert acc.2.1 b,
       dictAdjust acc.2.2 b (fun l => poolInsert l newTribuf.id)))
    (st.ts, st.added, dc)
  { st with module := m, dc := tad.2.2, ts := tad.1, added := tad.2.1 }

/-- Lines 284-416. -/
def propagateMuxReader (uf : UF) (it : SigBit) (tid rid : Nat) (st : TState) :
    TState :=
  let m := st.module
  let en1_port := triEnPort (cellTypeOf m tid)
  -- lines 288-306: which data input consumes `it`
  let onA := !(specExtract (canonSpec uf (getPortOf m rid PortName.A)) [it]).isEmpty
  let onB := !(specExtract (canonSpec uf (getPortOf m rid PortName.B)) [it]).isEmpty
  if !onA && !onB then st  -- log_warning, continue
  else
    let is_a := onA
    -- lines 308-319
    let output_y := canonSpec uf (getPortOf m tid PortName.Y)
    let input_y := canonSpec uf (getPortOf m rid (if is_a then PortName.A else PortName.B))
    let x := canonSpec uf (getPortOf m tid PortName.A)
    let extracted_y := specExtract output_y input_y
    let extracted_x := specExtractOther output_y input_y x
    let y2 := getPortOf m rid PortName.Y
    let extracted_y2 := specExtractOther input_y extracted_y y2
    let wm := m.addWire extracted_y.length
    let y3 := wm.1
    let m := wm.2
    let mkd :=
      if extracted_y.length = input_y.length then
        muxRewriteFull uf rid is_a extracted_x y3 input_y y2 m st.km st.dc
      else
        muxRewriteSplit uf rid is_a extracted_x y3 input_y extracted_y y2 extracted_y2
          m st.km st.dc
    muxFinishTribuf uf en1_port tid rid is_a y3 extracted_y2
      { st with module := mkd.1, km := mkd.2.1, dc := mkd.2.2 }

/-- Lines 417-491 (the worklist bit is unused in this branch outside of
log messages). -/
def propagateTribufReader (uf : UF) (_it : SigBit) (tid rid : Nat) (st : TState) :
    TState :=
  let m := st.module
  let en1_port := triEnPort (cellTypeOf m tid)
  let en2_port := triEnPort (cellTypeOf m rid)
  -- lines 422-426
  let output := canonSpec uf (getPortOf m tid PortName.Y)
  let input := canonSpec uf (getPortOf m rid PortName.A)
  let extracted_y := specExtract output input
  if extracted_y.isEmpty then st  -- lines 487-490: log_warning
  else
    let a := specExtractOther output input (getPortOf m tid PortName.A)
    if extracted_y = output then
      -- lines 432-451: rewrite the downstream tri-state in place
      let y := getPortOf m rid PortName.Y
      let m := m.replaceCell rid (fun c => c.setPort PortName.A a)
      let (and_y, m) := m.addWire 1
      let (andGate, m) := m.addCell CellType.andOp
        [(PortName.A, getPortOf m tid en1_port), (PortName.B, getPortOf m rid en2_port),
         (PortName.Y, wireSpec and_y)]
      let m := m.replaceCell rid
        (fun c => { c.setPort en2_port (wireSpec and_y) with widthParam := a.length })
      let dc := (canonSpec uf (wireSpec and_y)).foldl
        (fun dc b => dictUpsert dc b [] (fun l => poolInsert l andGate.id)) st.dc
      let km := (canonSpec uf y).foldl
        (fun km b =>
          if dictHas km b then
            (if b.isWire then dictAdjust km b (fun l => poolErase l rid) else km)
          else km)
        st.km
      { st with module := m, km := km, dc := dc }
    else
      -- lines 452-486: split the downstream tri-state
      let y2 := getPortOf m rid PortName.Y
      let extracted_y2 := specExtractOther output input y2
      let m := m.replaceCell rid
        (fun c => { (c.setPort PortName.A a).setPort PortName.Y y2 with
                    widthParam := a.length })
      let (and_y, m) := m.addWire 1
      let (andGate, m) := m.addCell CellType.andOp
        [(PortName.A, getPortOf m tid en1_port), (PortName.B, getPortOf m rid en2_port),
         (PortName.Y, wireSpec and_y)]
      let (newTribuf, m) := m.addCell CellType.tribuf
        [(PortName.A, extracted_y), (PortName.EN, wireSpec and_y),
         (PortName.Y, extracted_y2)]
      -- lines 468-473
      let (ts, added, dc) := (canonSpec uf extracted_y2).foldl
        (fun (acc : List SigBit × List SigBit × List (SigBit × List Nat)) b =>
          let (ts, added, dc) := acc
          (poolInsert ts b, poolInsert added b,
           dictAdjust dc b (fun l => poolInsert (poolErase l rid) newTribuf.id)))
        (st.ts, st.added, st.dc)
      -- lines 475-477
      let dc := (canonSpec uf (wireSpec and_y)).foldl
        (fun dc b => dictUpsert dc b [] (fun l => poolInsert l andGate.id)) dc
      -- lines 479-485
      let km := (canonSpec uf extracted_y).foldl
        (fun km b =>
          let km :=
            if dictHas km b then
              (if b.isWire then dictAdjust km b (fun l => poolErase l rid) else km)
            else km
          if b.isWire then idxInsert km b newTribuf.id else km)
        st.km
      { st with module := m, km := km, dc := dc, ts := ts, added := added }

/-- Lines 266-296 and the reader loop: propagate the unique driving
tri-state of `it` through every reader recorded in `know_muxes`. -/
def processBitTail (uf : UF) (it : SigBit) (st : TState) :
    PassOut :=
  -- lines 266-269
  if !(st.ts.contains it) then .ok st
  else
    -- lines 271-273
    let tid := (dictAt st.dc it).headD 0
    let st := { st with ts := poolErase st.ts it }
    let readers := dictAt st.km it
    let st := readers.foldl
      (fun st rid =>
        if isMuxType (cellTypeOf st.module rid) then
          propagateMuxReader uf it tid rid st
        else if isTribufType (cellTypeOf st.module rid) then
          propagateTribufReader uf it tid rid st
        else st)
      st
    .ok st

/-- Lines 239-496: process one worklist bit. -/
def processBit (cfg : TribufConfig) (uf : UF) (it : SigBit) (st : TState) :
    PassOut :=
  -- line 240: the debug invariant; its failure is a `log_error`
  if !(checkKnowMuxes cfg uf st) then .fatal st
  -- lines 241-242
  else if !(dictHas st.km it) then .ok st
  -- lines 244-254
  else if (dictAt st.dc it).any
      (fun cid => !(isTribufType (cellTypeOf st.module cid))) then .ok st
  -- lines 260-263: several drivers and merging is off
  else if (dictAt st.dc it).length > 1 && !cfg.merge_mode then .ok st
  else
    -- lines 256-259
    match (if (dictAt st.dc it).length > 1 then merge cfg uf it st else .ok st) with
    | .fatal st' => .fatal st'
    | .ok st1 => processBitTail uf it st1

/-- One round of the worklist loop (the `for` over `current_tribufs`). -/
def processCurrent (cfg : TribufConfig) (uf : UF) :
    List SigBit → TState → PassOut
  | [], st => .ok st
  | b :: rest, st =>
    match processBit cfg uf b st with
    | .fatal st' => .fatal st'
    | .ok st' => processCurrent cfg uf rest st'

/-- Outcome of the worker's `run`: normal completion, `log_error` abort,
or fuel exhaustion of the propagation loop. -/
inductive RunOut where
  | ok (st : TState)
  | fatal (st : TState)
  | fuelOut (st : TState)
deriving DecidableEq

/-- Lines 235-497: the propagation worklist loop.  The source's `while`
is unbounded; `fuel` bounds the number of outer iterations and `fuelOut`
reports a worklist still non-empty after `fuel` rounds. -/
def propagateLoop (cfg : TribufConfig) (uf : UF) : Nat → TState → RunOut
  | 0, st => if st.added.isEmpty then .ok st else .fuelOut st
  | fuel + 1, st =>
    if st.added.isEmpty then .ok st
    else
      match processCurrent cfg uf st.added { st with added := [] } with
      | .fatal st' => .fatal st'
      | .ok st' => propagateLoop cfg uf fuel st'

/-- Lines 500-512: the final merge phase over `tribuf_signals`. -/
def mergePhase (cfg : TribufConfig) (uf : UF) : List SigBit → TState → PassOut
  | [], st => .ok st
  | b :: rest, st =>
    -- lines 503-508: `goto skip_signal` on a non-tri-state driver
    if (dictAt st.dc b).any
        (fun cid => !(isTribufType (cellTypeOf st.module cid))) then
      mergePhase cfg uf rest st
    else
      match merge cfg uf b st with
      | .fatal st' => .fatal st'
      | .ok st' => mergePhase cfg uf rest st'

/-- Models `TribufWorker::run` (lines 141-513) including worker construction:
`sp0` is the incoming `tribuf.added_something` scratchpad value, `fuel`
bounds the propagation loop. -/
def runTribuf (cfg : TribufConfig) (fuel : Nat) (m : Module) (sp0 : Bool) :
    RunOut :=
  let uf := buildFullSigmap m.connections
  -- lines 147-151
  let outBits := if cfg.logic_mode || cfg.formal_mode then collectOutputBits uf m else []
  -- lines 153-214
  let acc := recognitionFold cfg uf m.cells
    { cells := [], fresh := m.fresh, ts := [], km := [], sp := sp0 }
  let m1 : Module := { m with cells := acc.cells, fresh := acc.fresh }
  -- lines 216-221
  let dc := buildDrivingCells uf m1.cells
  let st : TState := { module := m1, km := acc.km, dc := dc, ts := acc.ts,
                       added := [], sp := acc.sp, outBits := outBits }
  -- line 223
  if !(checkKnowMuxes cfg uf st) then .fatal st
  else
    let afterProp : RunOut :=
      if cfg.propagate then
        -- lines 228-232: seed the worklist with `tribuf_signals`
        propagateLoop cfg uf fuel { st with added := st.ts }
      else .ok st
    match afterProp with
    | .fatal st' => .fatal st'
    | .fuelOut st' => .fuelOut st'
    | .ok st' =>
      -- lines 500-512
      if cfg.merge_mode || cfg.logic_mode || cfg.formal_mode then
        match mergePhase cfg uf st'.ts st' with
        | .ok st2 => .ok st2
        | .fatal st2 => .fatal st2
      else .ok st'

/-- The state carried by any `RunOut`. -/
def runState : RunOut → TState
  | .ok st => st
  | .fatal st => st
  | .fuelOut st => st

/-- Whether a `RunOut` reports fuel exhaustion of the worklist loop. -/
def runIsFuelOut : RunOut → Bool
  | .fuelOut _ => true
  | _ => false

/-! ### Lemmas about association-list updates -/

theorem dictGet?_mapEntry_self [DecidableEq κ] (l : List (κ × ν)) (k : κ)
    (g : ν → ν) :
    dictGet? (l.map (fun e => if e.1 = k then (k, g e.2) else e)) k
      = (dictGet? l k).map g := by
  induction l with
  | nil => simp [dictGet?]
  | cons a l ih =>
    by_cases ha : a.1 = k
    · simp [dictGet?, List.find?_cons, ha]
    · simpa [dictGet?, List.find?_cons, ha] using ih

theorem dictGet?_mapEntry_ne [DecidableEq κ] (l : List (κ × ν)) (k : κ)
    (g : ν → ν) (b : κ) (hne : ¬ b = k) :
    dictGet? (l.map (fun e => if e.1 = k then (k, g e.2) else e)) b
      = dictGet? l b := by
  induction l with
  | nil => simp
  | cons a l ih =>
    by_cases ha : a.1 = k
    · have hkb : ¬ (k = b) := fun h => hne h.symm
      have hab : ¬ (a.1 = b) := by rw [ha]; exact hkb
      simpa [dictGet?, List.find?_cons, ha, hkb, hab] using ih
    · by_cases hab : a.1 = b
      · simp [dictGet?, List.find?_cons, ha, hab, hne]
      · simpa [dictGet?, List.find?_cons, ha, hab] using ih

theorem dictGet?_append_single_ne [DecidableEq κ] (l : List (κ × ν)) (k : κ)
    (v : ν) (b : κ) (hne : ¬ b = k) :
    dictGet? (l ++ [(k, v)]) b = dictGet? l b := by
  induction l with
  | nil =>
    have hkb : ¬ (k = b) := fun h => hne h.symm
    simp [dictGet?, List.find?_cons, hkb]
  | cons a l ih =>
    by_cases hab : a.1 = b
    · simp [dictGet?, List.find?_cons, hab]
    · simpa [dictGet?, List.find?_cons, hab] using ih

theorem dictGet?_append_single_self [DecidableEq κ] (l : List (κ × ν)) (k : κ)
    (v : ν) (h : dictGet? l k = none) :
    dictGet? (l ++ [(k, v)]) k = some v := by
  induction l with
  | nil => simp [dictGet?, List.find?_cons]
  | cons a l ih =>
    by_cases hak : a.1 = k
    · simp [dictGet?, List.find?_cons, hak] at h
    · have h' : dictGet? l k = none := by simpa [dictGet?, List.find?_cons, hak] using h
      simpa [dictGet?, List.find?_cons, hak] using ih h'

theorem dictGet?_dictUpsert_self [DecidableEq κ] (d : List (κ × ν)) (k : κ)
    (dflt : ν) (f : ν → ν) :
    dictGet? (dictUpsert d k dflt f) k = some (f ((dictGet? d k).getD dflt)) := by
  unfold dictUpsert dictHas
  by_cases h : (dictGet? d k).isSome
  · rw [if_pos h]
    rw [dictGet?_mapEntry_self]
    cases hd : dictGet? d k with
    | none => rw [hd] at h; simp at h
    | some v => simp
  · rw [if_neg h]
    have hn : dictGet? d k = none := by
      cases hd : dictGet? d k with
      | none => rfl
      | some v => rw [hd] at h; simp at h
    rw [dictGet?_append_single_self d k _ hn, hn]
    rfl

theorem dictGet?_dictUpsert_ne [DecidableEq κ] (d : List (κ × ν)) (k : κ)
    (dflt : ν) (f : ν → ν) (b : κ) (hne : ¬ b = k) :
    dictGet? (dictUpsert d k dflt f) b = dictGet? d b := by
  unfold dictUpsert
  by_cases h : dictHas d k
  · rw [if_pos h]; exact dictGet?_mapEntry_ne d k f b hne
  · rw [if_neg h]; exact dictGet?_append_single_ne d k _ b hne

theorem dictGet?_dictAdjust_self [DecidableEq κ] (d : List (κ × ν)) (k : κ)
    (f : ν → ν) :
    dictGet? (dictAdjust d k f) k = (dictGet? d k).map f :=
  dictGet?_mapEntry_self d k f

theorem dictGet?_dictAdjust_ne [DecidableEq κ] (d : List (κ × ν)) (k : κ)
    (f : ν → ν) (b : κ) (hne : ¬ b = k) :
    dictGet? (dictAdjust d k f) b = dictGet? d b :=
  dictGet?_mapEntry_ne d k f b hne

/-! ### Lemmas about cell ports -/

theorem getPort_setPort_self (c : Cell) (p : PortName) (s : SigSpec) :
    (c.setPort p s).getPort p = s := by
  unfold Cell.setPort Cell.getPort
  by_cases h : (c.ports.find? (fun q => q.1 = p)).isSome
  · rw [if_pos h]
    have : dictGet? (c.ports.map (fun e => if e.1 = p then (p, s) else e)) p
        = (dictGet? c.ports p).map (fun _ => s) := by
      have := dictGet?_mapEntry_self (ν := SigSpec) c.ports p (fun _ => s)
      simpa using this
    simp only [dictGet?] at this
    cases hf : (c.ports.map (fun e => if e.1 = p then (p, s) else e)).find?
        (fun q => q.1 = p) with
    | none =>
      rw [hf] at this
      cases hf2 : c.ports.find? (fun q => q.1 = p) with
      | none => rw [hf2] at h; simp at h
      | some v => rw [hf2] at this; simp at this
    | some v =>
      rw [hf] at this
      cases hf2 : c.ports.find? (fun q => q.1 = p) with
      | none => rw [hf2] at h; simp at h
      | some w =>
        rw [hf2] at this
        simp at this
        simp [this]
  · rw [if_neg h]
    have hn : dictGet? c.ports p = none := by
      unfold dictGet?
      cases hf : c.ports.find? (fun q => q.1 = p) with
      | none => rfl
      | some v => rw [hf] at h; simp at h
    have := dictGet?_append_single_self c.ports p s hn
    unfold dictGet? at this
    cases hf : (c.ports ++ [(p, s)]).find? (fun q => q.1 = p) with
    | none => rw [hf] at this; simp at this
    | some v => rw [hf] at this; simp at this; simp [this]

theorem getPort_setPort_ne (c : Cell) (p r : PortName) (s : SigSpec)
    (hne : ¬ r = p) : (c.setPort p s).getPort r = c.getPort r := by
  unfold Cell.setPort Cell.getPort
  by_cases h : (c.ports.find? (fun q => q.1 = p)).isSome
  · rw [if_pos h]
    have := dictGet?_mapEntry_ne (ν := SigSpec) c.ports p (fun _ => s) r hne
    unfold dictGet? at this
    cases hf : (c.ports.map (fun e => if e.1 = p then (p, s) else e)).find?
        (fun q => q.1 = r) with
    | none =>
      rw [hf] at this
      cases hf2 : c.ports.find? (fun q => q.1 = r) with
      | none => rfl
      | some v => rw [hf2] at this; simp at this
    | some v =>
      rw [hf] at this
      cases hf2 : c.ports.find? (fun q => q.1 = r) with
      | none => rw [hf2] at this; simp at this
      | some w => rw [hf2] at this; simp at this; simp [this]
  · rw [if_neg h]
    have := dictGet?_append_single_ne (ν := SigSpec) c.ports p s r hne
    unfold dictGet? at this
    cases hf : (c.ports ++ [(p, s)]).find? (fun q => q.1 = r) with
    | none =>
      rw [hf] at this
      cases hf2 : c.ports.find? (fun q => q.1 = r) with
      | none => rfl
      | some v => rw [hf2] at this; simp at this
    | some v =>
      rw [hf] at this
      cases hf2 : c.ports.find? (fun q => q.1 = r) with
      | none => rw [hf2] at this; simp at this
      | some w => rw [hf2] at this; simp at this; simp [this]

theorem find?_filter_ne (l : List (PortName × SigSpec)) (p r : PortName)
    (hne : ¬ r = p) :
    (l.filter (fun q => ¬ q.1 = p)).find? (fun q => q.1 = r)
      = l.find? (fun q => q.1 = r) := by
  induction l with
  | nil => rfl
  | cons a l ih =>
    by_cases hap : a.1 = p
    · have hpr : ¬ (p = r) := fun h => hne h.symm
      simpa [List.filter_cons, List.find?_cons, hap, hpr] using ih
    · by_cases har : a.1 = r
      · simp [List.filter_cons, List.find?_cons, hap, har, hne]
      · simpa [List.filter_cons, List.find?_cons, hap, har] using ih

theorem getPort_unsetPort_ne (c : Cell) (p r : PortName) (hne : ¬ r = p) :
    (c.unsetPort p).getPort r = c.getPort r := by
  unfold Cell.unsetPort Cell.getPort
  rw [find?_filter_ne c.ports p r hne]

theorem find?_filter_out (l : List (PortName × SigSpec)) (p : PortName) :
    ((l.filter (fun q => ¬ q.1 = p)).find? (fun q => q.1 = p)) = none := by
  rw [List.find?_eq_none]
  intro x hx
  have := List.of_mem_filter hx
  simpa using this

theorem find?_filter_filter_out (l : List (PortName × SigSpec)) (p r : PortName) :
    (((l.filter (fun q => ¬ q.1 = p)).filter (fun q => ¬ q.1 = r)).find?
      (fun q => q.1 = p)) = none := by
  rw [List.find?_eq_none]
  intro x hx
  have hx1 : x ∈ l.filter (fun q => ¬ q.1 = p) := List.mem_of_mem_filter hx
  have := List.of_mem_filter hx1
  simpa using this

/-! ### Facts about the z-mux rewrite (lines 183-197) -/

theorem setPort_id (c : Cell) (p : PortName) (s : SigSpec) :
    (c.setPort p s).id = c.id := by
  unfold Cell.setPort
  split <;> rfl

theorem unsetPort_id (c : Cell) (p : PortName) : (c.unsetPort p).id = c.id := rfl

theorem rewriteZA_id (c : Cell) : (rewriteZA c).id = c.id := by
  by_cases hm : c.ctype = CellType.mux <;>
    simp [rewriteZA, hm, setPort_id, unsetPort_id]

theorem getPort_update_ctype (c : Cell) (t : CellType) (p : PortName) :
    (Cell.mk c.id t c.ports c.widthParam c.keep c.src).getPort p = c.getPort p := rfl

theorem rewriteZA_ctype (c : Cell) :
    (rewriteZA c).ctype
      = (if c.ctype = CellType.mux then CellType.tribuf else CellType.tbufGate) := by
  by_cases hm : c.ctype = CellType.mux <;> simp [rewriteZA, hm]

theorem rewriteZA_getPort_A (c : Cell) :
    (rewriteZA c).getPort PortName.A = c.getPort PortName.B := by
  by_cases hm : c.ctype = CellType.mux <;>
    simp [rewriteZA, hm, getPort_update_ctype, getPort_unsetPort_ne,
          getPort_setPort_ne, getPort_setPort_self]

theorem rewriteZA_getPort_en (c : Cell) :
    (rewriteZA c).getPort (if c.ctype = CellType.mux then PortName.EN else PortName.E)
      = c.getPort PortName.S := by
  by_cases hm : c.ctype = CellType.mux <;>
    simp [rewriteZA, hm, getPort_update_ctype, getPort_unsetPort_ne,
          getPort_setPort_ne, getPort_setPort_self]

theorem rewriteZA_no_B (c : Cell) :
    (rewriteZA c).ports.find? (fun q => q.1 = PortName.B) = none := by
  by_cases hm : c.ctype = CellType.mux <;>
    · simp only [rewriteZA, Cell.unsetPort, hm]
      exact find?_filter_filter_out _ _ _

theorem rewriteZA_no_S (c : Cell) :
    (rewriteZA c).ports.find? (fun q => q.1 = PortName.S) = none := by
  by_cases hm : c.ctype = CellType.mux <;>
    · simp only [rewriteZA, Cell.unsetPort, hm]
      exact find?_filter_out _ _

/-! ### The recognition phase rewrites z-muxes in place -/

theorem recogCell_za (cfg : TribufConfig) (uf : UF) (acc : RecogAcc) (c : Cell)
    (hmux : isMuxType c.ctype = true)
    (hzA : isAllZ (c.getPort PortName.A) = true)
    (hzB : isAllZ (c.getPort PortName.B) = false) :
    (recogCell cfg uf acc c).cells = acc.cells ++ [rewriteZA c] ∧
    (recogCell cfg uf acc c).sp = true := by
  have htri : isTribufType c.ctype = false := by
    cases hct : c.ctype <;> simp_all [isMuxType, isTribufType]
  unfold recogCell
  simp [htri, hmux, hzA, hzB]

theorem recogCell_mem (cfg : TribufConfig) (uf : UF) (acc : RecogAcc)
    (c : Cell) (x : Cell) (h : x ∈ acc.cells) :
    x ∈ (recogCell cfg uf acc c).cells := by
  simp only [recogCell]
  repeat' split
  all_goals first
    | exact h
    | exact List.mem_append_left _ h

theorem recogCell_sp_mono (cfg : TribufConfig) (uf : UF) (acc : RecogAcc)
    (c : Cell) (h : acc.sp = true) :
    (recogCell cfg uf acc c).sp = true := by
  simp only [recogCell]
  repeat' split
  all_goals simp [h]

theorem recognitionFold_mem (cfg : TribufConfig) (uf : UF) (cells : List Cell) :
    ∀ (acc : RecogAcc) (x : Cell), x ∈ acc.cells →
      x ∈ (recognitionFold cfg uf cells acc).cells := by
  induction cells with
  | nil => intro acc x h; exact h
  | cons c rest ih =>
    intro acc x h
    have hx : x ∈ (recogCell cfg uf acc c).cells := recogCell_mem cfg uf acc c x h
    simpa [recognitionFold] using ih (recogCell cfg uf acc c) x hx

theorem recognitionFold_sp (cfg : TribufConfig) (uf : UF) (cells : List Cell) :
    ∀ acc : RecogAcc, acc.sp = true →
      (recognitionFold cfg uf cells acc).sp = true := by
  induction cells with
  | nil => intro acc h; exact h
  | cons c rest ih =>
    intro acc h
    simpa [recognitionFold] using
      ih (recogCell cfg uf acc c) (recogCell_sp_mono cfg uf acc c h)

theorem recognitionFold_za (cfg : TribufConfig) (uf : UF) (cells : List Cell) :
    ∀ (acc : RecogAcc) (c : Cell), c ∈ cells → isMuxType c.ctype = true →
      isAllZ (c.getPort PortName.A) = true →
      isAllZ (c.getPort PortName.B) = false →
      rewriteZA c ∈ (recognitionFold cfg uf cells acc).cells ∧
      (recognitionFold cfg uf cells acc).sp = true := by
  induction cells with
  | nil => intro acc c h; cases h
  | cons d rest ih =>
    intro acc c hc hmux hzA hzB
    rcases List.mem_cons.mp hc with h | h
    · subst h
      have hza := recogCell_za cfg uf acc c hmux hzA hzB
      constructor
      · have hmem : rewriteZA c ∈ (recogCell cfg uf acc c).cells := by
          rw [hza.1]
          exact List.mem_append_right _ (List.mem_singleton_self _)
        simpa [recognitionFold] using
          recognitionFold_mem cfg uf rest (recogCell cfg uf acc c) _ hmem
      · simpa [recognitionFold] using
          recognitionFold_sp cfg uf rest (recogCell cfg uf acc c) hza.2
    · have := ih (recogCell cfg uf acc d) c h hmux hzA hzB
      simpa [recognitionFold] using this

/-- C3: every (selected) mux whose `A` port is all-`Z` while `B` is not is
rewritten in place by the recognition phase: the rewritten cell — with
the old `B` moved to `A`, the old `S` moved to the enable port, ports `B`
and `S` removed, and the tri-state cell type — is among the resulting
cells, and the `tribuf.added_something` scratchpad flag is raised. -/
theorem tribuf_zmux_rewrite (cfg : TribufConfig) (uf : UF) (cells : List Cell)
    (acc : RecogAcc) (c : Cell) (hc : c ∈ cells)
    (hmux : isMuxType c.ctype = true)
    (hzA : isAllZ (c.getPort PortName.A) = true)
    (hzB : isAllZ (c.getPort PortName.B) = false) :
    rewriteZA c ∈ (recognitionFold cfg uf cells acc).cells ∧
    (recognitionFold cfg uf cells acc).sp = true ∧
    (rewriteZA c).ctype
      = (if c.ctype = CellType.mux then CellType.tribuf else CellType.tbufGate) ∧
    (rewriteZA c).getPort PortName.A = c.getPort PortName.B ∧
    (rewriteZA c).getPort (if c.ctype = CellType.mux then PortName.EN else PortName.E)
      = c.getPort PortName.S ∧
    (rewriteZA c).ports.find? (fun q => q.1 = PortName.B) = none ∧
    (rewriteZA c).ports.find? (fun q => q.1 = PortName.S) = none ∧
    (rewriteZA c).id = c.id := by
  obtain ⟨h1, h2⟩ := recognitionFold_za cfg uf cells acc c hc hmux hzA hzB
  exact ⟨h1, h2, rewriteZA_ctype c, rewriteZA_getPort_A c, rewriteZA_getPort_en c,
         rewriteZA_no_B c, rewriteZA_no_S c, rewriteZA_id c⟩

/-- The mux `$mux(A=1'bz, B=w1[0], S=w2[0], Y=w3[0])`. -/
def zmuxCell : Cell :=
  { id := 0, ctype := CellType.mux,
    ports := [(PortName.A, [SigBit.const St.sz]), (PortName.B, [SigBit.wbit 1 0]),
              (PortName.S, [SigBit.wbit 2 0]), (PortName.Y, [SigBit.wbit 3 0])] }

/-- The empty recognition accumulator over fresh counter 4. -/
def recogAcc0 : RecogAcc :=
  { cells := [], fresh := 4, ts := [], km := [], sp := false }

/-- Witness for `tribuf_zmux_rewrite` on a concrete z-mux. -/
theorem tribuf_zmux_rewrite_witness :
    zmuxCell ∈ [zmuxCell] ∧ isMuxType zmuxCell.ctype = true ∧
    isAllZ (zmuxCell.getPort PortName.A) = true ∧
    isAllZ (zmuxCell.getPort PortName.B) = false ∧
    (rewriteZA zmuxCell
        ∈ (recognitionFold {} [] [zmuxCell] recogAcc0).cells ∧
     (recognitionFold {} [] [zmuxCell] recogAcc0).sp = true ∧
     (rewriteZA zmuxCell).ctype
       = (if zmuxCell.ctype = CellType.mux then CellType.tribuf else CellType.tbufGate) ∧
     (rewriteZA zmuxCell).getPort PortName.A = zmuxCell.getPort PortName.B ∧
     (rewriteZA zmuxCell).getPort
         (if zmuxCell.ctype = CellType.mux then PortName.EN else PortName.E)
       = zmuxCell.getPort PortName.S ∧
     (rewriteZA zmuxCell).ports.find? (fun q => q.1 = PortName.B) = none ∧
     (rewriteZA zmuxCell).ports.find? (fun q => q.1 = PortName.S) = none ∧
     (rewriteZA zmuxCell).id = zmuxCell.id) :=
  ⟨by decide, by decide, by decide, by decide,
   tribuf_zmux_rewrite {} [] [zmuxCell] recogAcc0 zmuxCell (by decide) (by decide)
     (by decide) (by decide)⟩

/-! ### Early return and fatal error in `merge` -/

/-- C10: with neither `-logic` nor `-formal`, invoking `merge` on a bit
driven by at most one cell returns before any mutation: the state
(module, indexes, scratchpad) is returned unchanged. -/
theorem tribuf_merge_single_driver_noop (cfg : TribufConfig) (uf : UF)
    (sig : SigBit) (st : TState)
    (hlogic : cfg.logic_mode = false) (hformal : cfg.formal_mode = false)
    (h : (mergeCells st.dc sig).length ≤ 1) :
    merge cfg uf sig st = PassOut.ok st := by
  have hnt : mergeNoTribuf cfg st.outBits sig = false := by
    simp [mergeNoTribuf, hlogic, hformal]
  simp [merge, hnt, h]

/-- The empty worker state over the empty module. -/
def tstate0 : TState :=
  { module := { wires := [], cells := [], connections := [], fresh := 0 },
    km := [], dc := [], ts := [], added := [], sp := false, outBits := [] }

/-- Witness for `tribuf_merge_single_driver_noop`: a bit with no driver
at all under plain `-merge`. -/
theorem tribuf_merge_single_driver_noop_witness :
    ({ merge_mode := true : TribufConfig }).logic_mode = false ∧
    ({ merge_mode := true : TribufConfig }).formal_mode = false ∧
    (mergeCells tstate0.dc (SigBit.wbit 0 0)).length ≤ 1 ∧
    merge { merge_mode := true } [] (SigBit.wbit 0 0) tstate0 = PassOut.ok tstate0 :=
  ⟨rfl, rfl, by decide,
   tribuf_merge_single_driver_noop { merge_mode := true } [] (SigBit.wbit 0 0)
     tstate0 rfl rfl (by decide)⟩

theorem partitionFold_none (uf : UF) (m : Module) (l : List Nat) :
    l.foldl (partitionStep uf m) none = none := by
  induction l with
  | nil => rfl
  | cons a l ih => simpa [partitionStep] using ih

theorem partitionFold_eq_none (uf : UF) (m : Module) (l : List Nat) (cid : Nat)
    (hmem : cid ∈ l)
    (hbad : ¬ (canonSpec uf (getPortOf m cid (triEnPort (cellTypeOf m cid)))).length = 1) :
    ∀ acc, l.foldl (partitionStep uf m) acc = none := by
  induction l with
  | nil => cases hmem
  | cons a l ih =>
    intro acc
    rcases List.mem_cons.mp hmem with h | h
    · subst h
      have hstep : partitionStep uf m acc cid = none := by
        cases acc with
        | none => rfl
        | some parts => simp [partitionStep, hbad]
      rw [List.foldl_cons, hstep, partitionFold_none]
    · rw [List.foldl_cons]; exact ih h _

/-- C8: when `merge` reaches the partitioning step (it has more than one
driver or is in a logic-conversion mode, and every driver of the bit and
of its siblings is a tri-state) and some driver's canonicalized enable is
not exactly one bit wide, a fatal error is raised and the state — module,
indexes, scratchpad — is returned exactly as it was: nothing has been
rewritten. -/
theorem tribuf_merge_wide_enable_fatal (cfg : TribufConfig) (uf : UF)
    (sig : SigBit) (st : TState)
    (h1 : ((mergeCells st.dc sig).length ≤ 1 &&
           !mergeNoTribuf cfg st.outBits sig) = false)
    (h2 : ((mergeCells st.dc sig).any
            (fun cid => !(isTribufType (cellTypeOf st.module cid)))) = false)
    (h3 : ((mergeSiblings uf st.module st.dc sig).any
            (fun b => (dictAt st.dc b).any
              (fun cid => !(isTribufType (cellTypeOf st.module cid))))) = false)
    (cid : Nat) (hmem : cid ∈ mergeDrivers uf st.module st.dc sig)
    (hbad : ¬ (canonSpec uf (getPortOf st.module cid
              (triEnPort (cellTypeOf st.module cid)))).length = 1) :
    merge cfg uf sig st = PassOut.fatal st := by
  have hp : partitionDrivers uf st.module (mergeDrivers uf st.module st.dc sig)
      = none :=
    partitionFold_eq_none uf st.module _ cid hmem hbad (some [])
  simp only [merge, h1, h2, h3, Bool.false_eq_true, if_false, hp]

/-- A module with two tri-states driving wire 4: cell 5 has the 1-bit
enable `w1[0]`, cell 6 the 2-bit enable `{w3[0], w3[1]}`. -/
def wideEnableState : TState :=
  { module :=
      { wires := [{ id := 0, width := 1, port_input := false, port_output := false, public := true },
                  { id := 1, width := 1, port_input := false, port_output := false, public := true },
                  { id := 2, width := 1, port_input := false, port_output := false, public := true },
                  { id := 3, width := 2, port_input := false, port_output := false, public := true },
                  { id := 4, width := 1, port_input := false, port_output := false, public := true }],
        cells :=
          [{ id := 5, ctype := CellType.tribuf,
             ports := [(PortName.A, [SigBit.wbit 0 0]), (PortName.EN, [SigBit.wbit 1 0]),
                       (PortName.Y, [SigBit.wbit 4 0])] },
           { id := 6, ctype := CellType.tribuf,
             ports := [(PortName.A, [SigBit.wbit 2 0]),
                       (PortName.EN, [SigBit.wbit 3 0, SigBit.wbit 3 1]),
                       (PortName.Y, [SigBit.wbit 4 0])] }],
        connections := [], fresh := 7 },
    km := [], dc := [(SigBit.wbit 4 0, [5, 6])], ts := [SigBit.wbit 4 0],
    added := [], sp := false, outBits := [] }

/-- Witness for `tribuf_merge_wide_enable_fatal` at the concrete
two-driver state whose second driver has a 2-bit enable. -/
theorem tribuf_merge_wide_enable_fatal_witness :
    ((mergeCells wideEnableState.dc (SigBit.wbit 4 0)).length ≤ 1 &&
       !mergeNoTribuf { merge_mode := true } wideEnableState.outBits (SigBit.wbit 4 0)) = false ∧
    ((mergeCells wideEnableState.dc (SigBit.wbit 4 0)).any
       (fun cid => !(isTribufType (cellTypeOf wideEnableState.module cid)))) = false ∧
    ((mergeSiblings [] wideEnableState.module wideEnableState.dc (SigBit.wbit 4 0)).any
       (fun b => (dictAt wideEnableState.dc b).any
         (fun cid => !(isTribufType (cellTypeOf wideEnableState.module cid))))) = false ∧
    6 ∈ mergeDrivers [] wideEnableState.module wideEnableState.dc (SigBit.wbit 4 0) ∧
    ¬ (canonSpec [] (getPortOf wideEnableState.module 6
         (triEnPort (cellTypeOf wideEnableState.module 6)))).length = 1 ∧
    merge { merge_mode := true } [] (SigBit.wbit 4 0) wideEnableState
      = PassOut.fatal wideEnableState :=
  ⟨by decide, by decide, by decide, by decide, by decide,
   tribuf_merge_wide_enable_fatal { merge_mode := true } [] (SigBit.wbit 4 0)
     wideEnableState (by decide) (by decide) (by decide) 6 (by decide) (by decide)⟩

/-! ### Merging two tri-states driving the same bit -/

/-- Wires: `a1` = 0, `e1` = 1, `a2` = 2, `e2` = 3, `out` = 4; cells:
`$tribuf(A=a1, EN=e1, Y=out)` (id 5) and `$tribuf(A=a2, EN=e2, Y=out)`
(id 6). -/
def tribufMergeModule : Module :=
  { wires := (List.range 5).map
      (fun i => { id := i, width := 1, port_input := false,
                  port_output := false, public := true }),
    cells :=
      [{ id := 5, ctype := CellType.tribuf,
         ports := [(PortName.A, [SigBit.wbit 0 0]), (PortName.EN, [SigBit.wbit 1 0]),
                   (PortName.Y, [SigBit.wbit 4 0])] },
       { id := 6, ctype := CellType.tribuf,
         ports := [(PortName.A, [SigBit.wbit 2 0]), (PortName.EN, [SigBit.wbit 3 0]),
                   (PortName.Y, [SigBit.wbit 4 0])] }],
    connections := [], fresh := 7 }

/-- The plain `-merge` configuration. -/
def cfgMergeOnly : TribufConfig := { merge_mode := true }

/-- The run of the tribuf pass on `tribufMergeModule` (no propagation, so
the fuel bound is irrelevant). -/
def tribufMergeOut : RunOut := runTribuf cfgMergeOnly 0 tribufMergeModule false

/-- C2: running tribuf with `-merge` on the module with exactly the two
tri-states `$tribuf(A=a1,EN=e1,Y=out)` and `$tribuf(A=a2,EN=e2,Y=out)`
completes without error; afterwards `out` is driven by a single fresh
tri-state (id 13) whose `A` is the output of the `$pmux` (id 10) with
default `A = x`, `B = {a1, a2}` and `S = {e1, e2}`, and whose enable is
the output of the `$reduce_or` (id 12) of `{e1, e2}`; the two original
tri-states (ids 5, 6) are deleted and `tribuf.added_something` is set
(wires 9 and 11 are the fresh pmux / reduce-or outputs). -/
theorem tribuf_merge_two_tristates :
    tribufMergeOut = RunOut.ok (runState tribufMergeOut) ∧
    (runState tribufMergeOut).sp = true ∧
    ((runState tribufMergeOut).module.cells.filter
        (fun c => (c.getPort PortName.Y).contains (SigBit.wbit 4 0)))
      = [{ id := 13, ctype := CellType.tribuf,
           ports := [(PortName.A, [SigBit.wbit 9 0]), (PortName.EN, [SigBit.wbit 11 0]),
                     (PortName.Y, [SigBit.wbit 4 0])] }] ∧
    dictAt (runState tribufMergeOut).dc (SigBit.wbit 4 0) = [13] ∧
    ({ id := 10, ctype := CellType.pmux,
       ports := [(PortName.A, [SigBit.const St.sx]),
                 (PortName.B, [SigBit.wbit 0 0, SigBit.wbit 2 0]),
                 (PortName.S, [SigBit.wbit 1 0, SigBit.wbit 3 0]),
                 (PortName.Y, [SigBit.wbit 9 0])] } : Cell)
      ∈ (runState tribufMergeOut).module.cells ∧
    ({ id := 12, ctype := CellType.reduceOr,
       ports := [(PortName.A, [SigBit.wbit 1 0, SigBit.wbit 3 0]),
                 (PortName.Y, [SigBit.wbit 11 0])] } : Cell)
      ∈ (runState tribufMergeOut).module.cells ∧
    ((runState tribufMergeOut).module.cells.all
        (fun c => !(c.id == 5) && !(c.id == 6))) = true := by
  decide

/-! ### Divergence of the propagation loop on a combinational cycle -/

/-- Wires: `e` = 0, `b` = 1, `s` = 2, `y1` = 3, `y2` = 4; cells:
`$tribuf(A=y2, EN=e, Y=y1)` (id 5) and `$mux(A=y1, B=b, S=s, Y=y2)`
(id 6) — a combinational cycle through the tri-state and the mux. -/
def tribufCycleModule : Module :=
  { wires := (List.range 5).map
      (fun i => { id := i, width := 1, port_input := false,
                  port_output := false, public := true }),
    cells :=
      [{ id := 5, ctype := CellType.tribuf,
         ports := [(PortName.A, [SigBit.wbit 4 0]), (PortName.EN, [SigBit.wbit 0 0]),
                   (PortName.Y, [SigBit.wbit 3 0])] },
       { id := 6, ctype := CellType.mux,
         ports := [(PortName.A, [SigBit.wbit 3 0]), (PortName.B, [SigBit.wbit 1 0]),
                   (PortName.S, [SigBit.wbit 2 0]), (PortName.Y, [SigBit.wbit 4 0])] }],
    connections := [], fresh := 7 }

/-- Configuration `-propagate` (which implies `-merge`, lines 838-842). -/
def cfgPropagateMerge : TribufConfig := { merge_mode := true, propagate := true }

/-- C5: on the cyclic module the propagation worklist never empties.  For
every fuel bound `n ≤ 12` the loop is still running after `n` rounds
(never a normal or fatal exit); each round rewrites the mux onto fresh
wires and enqueues a fresh bit, so the netlist grows without bound
(27 cells after 12 rounds, worklist still non-empty). -/
theorem tribuf_propagation_unbounded_on_cycle :
    ((List.range 13).all
      (fun n => runIsFuelOut (runTribuf cfgPropagateMerge n tribufCycleModule false)))
      = true ∧
    (runState (runTribuf cfgPropagateMerge 12 tribufCycleModule false)).module.cells.length
      = 27 ∧
    (runState (runTribuf cfgPropagateMerge 12 tribufCycleModule false)).added
      = [SigBit.wbit 49 0] := by
  decide

/-! ### The upstream tri-state survives a propagation rewrite -/

theorem cid_mem_iff (tid : Nat) (l : List Nat) : cid_mem tid l = true ↔ tid ∈ l := by
  induction l with
  | nil => simp [cid_mem]
  | cons a l ih => simp [cid_mem] at ih ⊢

theorem cid_mem_poolInsert (tid x : Nat) (l : List Nat)
    (h : cid_mem tid l = true) : cid_mem tid (poolInsert l x) = true := by
  rw [cid_mem_iff] at h ⊢
  unfold poolInsert
  split
  · exact h
  · exact List.mem_append_left _ h

theorem cid_mem_poolErase (tid r : Nat) (l : List Nat) (hne : ¬ tid = r)
    (h : cid_mem tid l = true) : cid_mem tid (poolErase l r) = true := by
  rw [cid_mem_iff] at h ⊢
  exact List.mem_filter.mpr ⟨h, by simpa using hne⟩

/-- Holds when `d'` retains every index entry membership of cell `tid` that `d`
has. -/
def dcKeeps (tid : Nat) (d d' : List (SigBit × List Nat)) : Prop :=
  ∀ b, cid_mem tid (dictAt d b) = true → cid_mem tid (dictAt d' b) = true

theorem dcKeeps_refl (tid : Nat) (d : List (SigBit × List Nat)) :
    dcKeeps tid d d := fun _ h => h

theorem dcKeeps_trans {tid : Nat} {d1 d2 d3 : List (SigBit × List Nat)}
    (h1 : dcKeeps tid d1 d2) (h2 : dcKeeps tid d2 d3) : dcKeeps tid d1 d3 :=
  fun b h => h2 b (h1 b h)

theorem dcKeeps_upsert (tid : Nat) (d : List (SigBit × List Nat)) (k : SigBit)
    (f : List Nat → List Nat)
    (hf : ∀ l, cid_mem tid l = true → cid_mem tid (f l) = true) :
    dcKeeps tid d (dictUpsert d k [] f) := by
  intro b h
  by_cases hb : b = k
  · subst hb
    unfold dictAt at h ⊢
    rw [dictGet?_dictUpsert_self]
    simp only [Option.getD_some]
    exact hf _ h
  · unfold dictAt at h ⊢
    rw [dictGet?_dictUpsert_ne _ _ _ _ _ hb]
    exact h

theorem dcKeeps_adjust (tid : Nat) (d : List (SigBit × List Nat)) (k : SigBit)
    (f : List Nat → List Nat)
    (hf : ∀ l, cid_mem tid l = true → cid_mem tid (f l) = true) :
    dcKeeps tid d (dictAdjust d k f) := by
  intro b h
  by_cases hb : b = k
  · rw [hb] at h ⊢
    unfold dictAt at h ⊢
    rw [dictGet?_dictAdjust_self]
    cases hd : dictGet? d k with
    | none =>
      rw [hd] at h
      simp [cid_mem] at h
      exact absurd h (List.not_mem_nil tid)
    | some v =>
      rw [hd] at h
      simp only [Option.map_some, Option.getD_some] at h ⊢
      exact hf v h
  · unfold dictAt at h ⊢
    rw [dictGet?_dictAdjust_ne _ _ _ _ hb]
    exact h

theorem dcKeeps_foldl {β : Type} (tid : Nat) (s : List β)
    (step : List (SigBit × List Nat) → β → List (SigBit × List Nat))
    (hstep : ∀ d x, dcKeeps tid d (step d x)) :
    ∀ d, dcKeeps tid d (s.foldl step d) := by
  induction s with
  | nil => intro d; exact dcKeeps_refl _ _
  | cons a s ih => intro d; exact dcKeeps_trans (hstep d a) (ih (step d a))

theorem dcKeeps_idxInsertWireBits (tid : Nat) (d : List (SigBit × List Nat))
    (s : SigSpec) (x : Nat) : dcKeeps tid d (idxInsertWireBits d s x) := by
  apply dcKeeps_foldl
  intro d b
  unfold idxInsert
  split
  · exact dcKeeps_upsert tid d b _ (fun l => cid_mem_poolInsert tid x l)
  · exact dcKeeps_refl _ _

theorem mem_map_fixCell {l : List Cell} {c : Cell} (rid : Nat) (f : Cell → Cell)
    (hc : c ∈ l) (hne : ¬ c.id = rid) :
    c ∈ l.map (fun x => if x.id = rid then f x else x) :=
  List.mem_map.mpr ⟨c, hc, by simp [hne]⟩

theorem dcKeeps_tripleFold (tid : Nat) (nid : Nat) (s : List SigBit) :
    ∀ (ts added : List SigBit) (dc : List (SigBit × List Nat)),
      dcKeeps tid dc
        ((s.foldl (fun acc b =>
            (poolInsert acc.1 b, poolInsert acc.2.1 b,
             dictAdjust acc.2.2 b (fun l => poolInsert l nid))) (ts, added, dc)).2.2) := by
  induction s with
  | nil => intro ts added dc; exact dcKeeps_refl _ _
  | cons a s ih =>
    intro ts added dc
    exact dcKeeps_trans
      (dcKeeps_adjust tid dc a _ (fun l => cid_mem_poolInsert tid nid l))
      (ih _ _ _)

theorem muxRewriteFull_keeps (uf : UF) (rid : Nat) (is_a : Bool)
    (ex : SigSpec) (y3 : Wire) (iy y2 : SigSpec) (m : Module)
    (km dc : List (SigBit × List Nat)) (tid : Nat) (c : Cell)
    (hc : c ∈ m.cells) (hcne : ¬ c.id = rid) (hne : ¬ tid = rid) :
    c ∈ (muxRewriteFull uf rid is_a ex y3 iy y2 m km dc).1.cells ∧
    dcKeeps tid dc (muxRewriteFull uf rid is_a ex y3 iy y2 m km dc).2.2 := by
  unfold muxRewriteFull Module.replaceCell
  constructor
  · exact mem_map_fixCell rid _ hc hcne
  · refine dcKeeps_trans ?_ (dcKeeps_foldl tid _ _ (fun d x =>
      dcKeeps_upsert tid d x _ (fun l => cid_mem_poolInsert tid rid l)) _)
    exact dcKeeps_foldl tid _ _ (fun d x =>
      dcKeeps_upsert tid d x _ (fun l => cid_mem_poolErase tid rid l hne)) dc

theorem muxRewriteSplit_keeps (uf : UF) (rid : Nat) (is_a : Bool)
    (ex : SigSpec) (y3 : Wire) (iy ey y2 ey2 : SigSpec) (m : Module)
    (km dc : List (SigBit × List Nat)) (tid : Nat) (c : Cell)
    (hc : c ∈ m.cells) (hcne : ¬ c.id = rid) (hne : ¬ tid = rid) :
    c ∈ (muxRewriteSplit uf rid is_a ex y3 iy ey y2 ey2 m km dc).1.cells ∧
    dcKeeps tid dc (muxRewriteSplit uf rid is_a ex y3 iy ey y2 ey2 m km dc).2.2 := by
  unfold muxRewriteSplit Module.replaceCell Module.addCell
  constructor
  · exact List.mem_append_left _ (mem_map_fixCell rid _ hc hcne)
  · refine dcKeeps_trans ?_ (dcKeeps_foldl tid _ _ (fun d x =>
      dcKeeps_upsert tid d x _ (fun l => cid_mem_poolInsert tid _ l)) _)
    exact dcKeeps_foldl tid _ _ (fun d x =>
      dcKeeps_upsert tid d x _ (fun l => cid_mem_poolErase tid rid l hne)) dc

theorem muxFinishTribuf_keeps (uf : UF) (en1 : PortName) (tid rid : Nat)
    (is_a : Bool) (y3 : Wire) (ey2 : SigSpec) (st : TState) (c : Cell)
    (d0 : List (SigBit × List Nat))
    (hc : c ∈ st.module.cells) (hd : dcKeeps tid d0 st.dc) :
    c ∈ (muxFinishTribuf uf en1 tid rid is_a y3 ey2 st).module.cells ∧
    dcKeeps tid d0 (muxFinishTribuf uf en1 tid rid is_a y3 ey2 st).dc := by
  unfold muxFinishTribuf Module.addWire Module.addCell
  split
  · constructor
    · exact List.mem_append_left _
        (List.mem_append_left _ (List.mem_append_left _ hc))
    · refine dcKeeps_trans ?_ (dcKeeps_tripleFold tid _ _ _ _ _)
      refine dcKeeps_trans ?_ (dcKeeps_foldl tid _ _ (fun d x =>
        dcKeeps_upsert tid d x _ (fun l => cid_mem_poolInsert tid _ l)) _)
      refine dcKeeps_trans hd ?_
      exact dcKeeps_foldl tid _ _ (fun d x =>
        dcKeeps_upsert tid d x _ (fun l => cid_mem_poolInsert tid _ l)) st.dc
  · constructor
    · exact List.mem_append_left _ (List.mem_append_left _ hc)
    · refine dcKeeps_trans ?_ (dcKeeps_tripleFold tid _ _ _ _ _)
      refine dcKeeps_trans hd ?_
      exact dcKeeps_foldl tid _ _ (fun d x =>
        dcKeeps_upsert tid d x _ (fun l => cid_mem_poolInsert tid _ l)) st.dc

set_option maxHeartbeats 4000000 in
/-- C9: a propagation rewrite through a downstream mux — whether the mux
is rewritten in place or split — does not remove the upstream tri-state:
the cell (with all its ports, in particular its original `Y`) is still in
the module, and every `driving_cells` entry listing it (in particular the
one for its output bit) still lists it. -/
theorem tribuf_propagation_keeps_upstream (uf : UF) (it : SigBit)
    (tid rid : Nat) (st : TState) (c : Cell) (hc : c ∈ st.module.cells)
    (hid : c.id = tid) (hne : ¬ tid = rid) :
    c ∈ (propagateMuxReader uf it tid rid st).module.cells ∧
    dcKeeps tid st.dc (propagateMuxReader uf it tid rid st).dc := by
  have hcne : ¬ c.id = rid := by rw [hid]; exact hne
  unfold propagateMuxReader
  dsimp only
  refine ⟨?_, ?_⟩ <;> repeat' split
  all_goals first
    | exact hc
    | exact dcKeeps_refl _ _
    | (refine (muxFinishTribuf_keeps uf _ tid rid _ _ _ _ c st.dc ?_ ?_).1 <;>
        first
          | exact mem_map_fixCell rid _ hc hcne
          | exact List.mem_append_left _ (mem_map_fixCell rid _ hc hcne)
          | (refine dcKeeps_trans ?_ (dcKeeps_foldl tid _ _ (fun d x =>
                dcKeeps_upsert tid d x _ (fun l => cid_mem_poolInsert tid _ l)) _);
             exact dcKeeps_foldl tid _ _ (fun d x =>
                dcKeeps_upsert tid d x _ (fun l => cid_mem_poolErase tid rid l hne)) st.dc))
    | (refine (muxFinishTribuf_keeps uf _ tid rid _ _ _ _ c st.dc ?_ ?_).2 <;>
        first
          | exact mem_map_fixCell rid _ hc hcne
          | exact List.mem_append_left _ (mem_map_fixCell rid _ hc hcne)
          | (refine dcKeeps_trans ?_ (dcKeeps_foldl tid _ _ (fun d x =>
                dcKeeps_upsert tid d x _ (fun l => cid_mem_poolInsert tid _ l)) _);
             exact dcKeeps_foldl tid _ _ (fun d x =>
                dcKeeps_upsert tid d x _ (fun l => cid_mem_poolErase tid rid l hne)) st.dc))

/-- A tri-state (id 5) driving `w2[0]`, read by the mux (id 6) on `A`. -/
def propWitnessTribuf : Cell :=
  { id := 5, ctype := CellType.tribuf,
    ports := [(PortName.A, [SigBit.wbit 0 0]), (PortName.EN, [SigBit.wbit 1 0]),
              (PortName.Y, [SigBit.wbit 2 0])] }

/-- The downstream mux of the witness netlist. -/
def propWitnessMux : Cell :=
  { id := 6, ctype := CellType.mux,
    ports := [(PortName.A, [SigBit.wbit 2 0]), (PortName.B, [SigBit.wbit 3 0]),
              (PortName.S, [SigBit.wbit 4 0]), (PortName.Y, [SigBit.wbit 5 0])] }

/-- The worker state of the witness netlist. -/
def propWitnessState : TState :=
  { module :=
      { wires := (List.range 6).map
          (fun i => { id := i, width := 1, port_input := false,
                      port_output := false, public := true }),
        cells := [propWitnessTribuf, propWitnessMux],
        connections := [], fresh := 7 },
    km := [(SigBit.wbit 2 0, [6])],
    dc := [(SigBit.wbit 2 0, [5]), (SigBit.wbit 5 0, [6])],
    ts := [SigBit.wbit 2 0], added := [], sp := false, outBits := [] }

/-- Witness for `tribuf_propagation_keeps_upstream` at the concrete
tri-state-into-mux netlist. -/
theorem tribuf_propagation_keeps_upstream_witness :
    propWitnessTribuf ∈ propWitnessState.module.cells ∧
    propWitnessTribuf.id = 5 ∧ ¬ (5 : Nat) = 6 ∧
    (propWitnessTribuf
        ∈ (propagateMuxReader [] (SigBit.wbit 2 0) 5 6 propWitnessState).module.cells ∧
     dcKeeps 5 propWitnessState.dc
        (propagateMuxReader [] (SigBit.wbit 2 0) 5 6 propWitnessState).dc) :=
  ⟨by decide, rfl, by decide,
   tribuf_propagation_keeps_upstream [] (SigBit.wbit 2 0) 5 6 propWitnessState
     propWitnessTribuf (by decide) rfl (by decide)⟩

end Yosys